import Mathlib

/-!
# Verification of the merge/split engine of `file-merger-splitter`

This file gives a shallow embedding, in Lean 4, of the core merge/split engine
of the repository (`src/workers.py` and the format table of `src/config.py`),
and proves properties of that embedding.

Modelling conventions:
* Python strings are modelled as `List Char` (abbreviated `Str`); all the
  string primitives the code uses (`str.splitlines(keepends=True)`,
  `str.strip()`, `str.strip("./ ")`, `str.replace`) are defined below,
  character for character, after CPython's documented behaviour.
* The filesystem is modelled symlink-free: an absolute path is the list of its
  segments, `pathlib.Path.resolve` is lexical resolution of `..` segments,
  and a write is recorded as a pair (resolved target segments, content).
* Machine integers do not occur: Python's `int` is unbounded, so `Nat`
  is used directly; `int(x / y * 100)` on byte counters is modelled as
  `x * 100 / y` (floor division), which agrees with the float computation on
  all progress values relevant here and is monotone in `x` either way.
* The cooperative cancellation flag `self.is_running` is monotone (it is only
  ever set to `False`).  Each read of the flag is given an index, and a run is
  parameterised by `cancelAt : Option Nat`: read `i` returns `true` iff
  `cancelAt` is `none` or `i < k` for `cancelAt = some k`.
-/

/-- Python strings are modelled as lists of characters. -/
abbrev Str := List Char

/-- The end-of-line characters recognised by Python's `str.splitlines`
(`"\r\n"` is handled as a single terminator in `pySplitlines`). -/
def isNLChar (c : Char) : Bool :=
  c = '\n' || c = '\r' || c = '\x0b' || c = '\x0c' ||
  c = '\x1c' || c = '\x1d' || c = '\x1e' || c = '\u0085' || c = ' ' || c = ' '

/-- The character class stripped by Python's `str.strip()` (Unicode whitespace,
as tested by `str.isspace`).  Every `splitlines` terminator is whitespace. -/
def pySpace (c : Char) : Bool :=
  c = ' ' || c = '\t' || isNLChar c || c = '\x1f' || c = ' ' || c = ' ' ||
  (' ' ≤ c && c ≤ ' ') || c = ' ' || c = ' ' || c = '　'

/-- Python `s.strip()`: remove leading and trailing whitespace. -/
def pyStrip (s : Str) : Str :=
  ((s.dropWhile pySpace).reverse.dropWhile pySpace).reverse

/-- Python `s.splitlines(keepends=True)`: split on the line terminators of
`isNLChar`, treating `"\r\n"` as one terminator, keeping the terminators. -/
def pySplitlines : Str → List Str
  | [] => []
  | '\r' :: '\n' :: rest => ('\r' :: '\n' :: []) :: pySplitlines rest
  | c :: rest =>
    if isNLChar c then [c] :: pySplitlines rest
    else
      match pySplitlines rest with
      | [] => [[c]]
      | l :: ls => (c :: l) :: ls

/-- Splitting a character list on a separator character (used for the `/` of
POSIX paths, mirroring how `pathlib.PurePosixPath` cuts a path string). -/
def splitOnChar (sep : Char) : Str → List Str
  | [] => [[]]
  | c :: rest =>
    match splitOnChar sep rest with
    | [] => [[c]]
    | l :: ls => if c = sep then [] :: l :: ls else (c :: l) :: ls

/-- Strict lexicographic order on strings by Unicode code point — exactly the
order Python's `<` uses on `str`, which drives `sorted(..., key=...)`. -/
def strLt : Str → Str → Bool
  | [], [] => false
  | [], _ :: _ => true
  | _ :: _, [] => false
  | a :: as, b :: bs => a < b || (a = b && strLt as bs)

/-- Reflexive lexicographic order on strings (`x <= y` of Python `str`). -/
def strLe (x y : Str) : Bool := !(strLt y x)

/-- Number of bytes of the UTF-8 encoding of a string (Python
`len(s.encode('utf-8'))`), used by both workers for byte-based progress. -/
def utf8Len (s : Str) : Nat := (s.map Char.utf8Size).sum

-- ==========================================================================
-- Format descriptors (src/config.py, MERGE_FORMATS)
-- ==========================================================================

/-- A delimiter-format descriptor, after one entry of `MERGE_FORMATS`
(src/config.py lines 7-60).  `start` and `endOf` model
`start_fmt.format(filepath=...)` / `end_fmt.format(filepath=...)` from the
writer (src/workers.py lines 366-372); `startCapture` models
`re.match(start_regex_pattern, line_stripped)` returning the first capture
group; `get_end_delimiter` models the `get_end_delimiter` lambda. -/
structure MergeFormat where
  name : Str
  start : Str → Str
  endOf : Str → Str
  file_separator : Str
  content_prefix : Str
  content_suffix : Str
  startCapture : Str → Option Str
  get_end_delimiter : Str → Str
  skip_line_after_start : Bool

/-- The `"Default"` format: `--- START FILE: {filepath} ---` /
`--- END FILE: {filepath} ---`.  The anchored regex
`^--- START FILE: (.*?) ---$` matches a (terminator-free) line iff it is the
16-character prefix, then the capture, then the literal 4-character `" ---"`;
the `$`-anchored tail makes the capture unique, lazy or not. -/
def fmtDefault : MergeFormat where
  name := "Default".data
  start := fun fp => "--- START FILE: ".data ++ fp ++ " ---".data
  endOf := fun fp => "--- END FILE: ".data ++ fp ++ " ---".data
  file_separator := "\n\n".data
  content_prefix := []
  content_suffix := []
  startCapture := fun s =>
    if "--- START FILE: ".data.isPrefixOf s && " ---".data.isSuffixOf (s.drop 16) then
      some ((s.drop 16).take ((s.drop 16).length - 4))
    else none
  get_end_delimiter := fun fp => "--- END FILE: ".data ++ fp ++ " ---".data
  skip_line_after_start := false

/-- The `"Markdown"` format: a `` File: `{filepath}` `` header, a skipped
` ``` ` fence line right after it, and a constant ` ``` ` end delimiter.
The regex `^File: \x60(.*?)\x60$` matches iff the line is the 7-character
prefix, the capture, and a final backquote. -/
def fmtMarkdown : MergeFormat where
  name := "Markdown".data
  start := fun fp => "File: `".data ++ fp ++ "`".data
  endOf := fun _ => "```".data
  file_separator := "\n\n".data
  content_prefix := "```\n".data
  content_suffix := []
  startCapture := fun s =>
    if "File: `".data.isPrefixOf s && "`".data.isSuffixOf (s.drop 7) then
      some ((s.drop 7).take ((s.drop 7).length - 1))
    else none
  get_end_delimiter := fun _ => "```".data
  skip_line_after_start := true

/-- The `"Markdown (Fenced)"` format: ` ```{filepath} ` opens a block, a bare
` ``` ` closes it.  The regex `^\x60\x60\x60(?!\x60\x60)(.*)$` matches iff the
line starts with three backquotes not followed by two more; the greedy
`(.*)$` capture is the whole remainder of the line. -/
def fmtFenced : MergeFormat where
  name := "Markdown (Fenced)".data
  start := fun fp => "```".data ++ fp
  endOf := fun _ => "```".data
  file_separator := "\n\n".data
  content_prefix := []
  content_suffix := []
  startCapture := fun s =>
    if "```".data.isPrefixOf s && !("``".data.isPrefixOf (s.drop 3)) then
      some (s.drop 3)
    else none
  get_end_delimiter := fun _ => "```".data
  skip_line_after_start := false

/-- The built-in formats of `MERGE_FORMATS`. -/
def builtinFormats : List MergeFormat := [fmtDefault, fmtMarkdown, fmtFenced]

-- ==========================================================================
-- MergerWorker.run, writing phase (src/workers.py lines 314-430)
-- ==========================================================================

/-- `sorted(files_discovered_in_scan, key=lambda x: x[1].as_posix())`
(src/workers.py lines 314-316), on (relative path, content) pairs.  Python's
`sorted` is a stable sort by `<` on the key, and a stable sort by a total
preorder is unique, so `List.insertionSort` (stable) computes it. -/
def sortFiles (files : List (Str × Str)) : List (Str × Str) :=
  files.insertionSort (fun a b => strLe a.1 b.1 = true)

/-- File content as laid out in the artifact: lines 400-403 write the content
and then one newline if the content is non-empty and does not already end
with one (so the end delimiter always starts on its own line). -/
def ensureNL (c : Str) : Str :=
  if c ≠ [] ∧ c.getLast? ≠ some '\n' then c ++ ['\n'] else c

/-- One file block as the writer emits it (src/workers.py lines 366-413):
start delimiter + newline, content prefix, content (with the conditional
newline), content suffix, end delimiter + newline. -/
def mergeBlock (F : MergeFormat) (fp c : Str) : Str :=
  F.start fp ++ ['\n'] ++ F.content_prefix ++ ensureNL c ++
    F.content_suffix ++ F.endOf fp ++ ['\n']

/-- The artifact written for an (already sorted) file list with
`include_tree=False`: the file separator follows every block except the last
(src/workers.py lines 415-417). -/
def mergeArtifact (F : MergeFormat) : List (Str × Str) → Str
  | [] => []
  | [(fp, c)] => mergeBlock F fp c
  | (fp, c) :: rest => mergeBlock F fp c ++ F.file_separator ++ mergeArtifact F rest

/-- Phase 2 of `MergerWorker.run` with `include_tree=False`, as a pure
function from the scanned (relative path, content) list to the artifact
text: sort by POSIX relative path, then write the blocks. -/
def mergeRun (F : MergeFormat) (files : List (Str × Str)) : Str :=
  mergeArtifact F (sortFiles files)

-- ==========================================================================
-- Path cleaning, resolution, containment (SplitterWorker._write_file)
-- ==========================================================================

/-- The character set of `str.strip("./ ")`. -/
def isDotSlashSpace (c : Char) : Bool := c = '.' || c = '/' || c = ' '

/-- `_write_file`'s path cleaning (src/workers.py lines 786-790): replace
every backslash by `/`, then strip all leading and trailing `.`, `/` and
space characters. -/
def cleanPath (s : Str) : Str :=
  let slashed := s.map (fun c => if c = '\\' then '/' else c)
  ((slashed.dropWhile isDotSlashSpace).reverse.dropWhile isDotSlashSpace).reverse

/-- The parts of a POSIX-slash relative path string, as
`pathlib.PurePosixPath` computes them: cut at `/`, drop empty and
single-dot segments (`..` segments are kept). -/
def pathParts (s : Str) : List Str :=
  (splitOnChar '/' s).filter (fun seg => !seg.isEmpty && seg != ".".data)

/-- Lexical `resolve()` of a relative segment list against an absolute base
path (given as its segments), in a symlink-free filesystem: `..` pops one
segment, and popping above the filesystem root stays at the root. -/
def resolveSegs (base : List Str) (parts : List Str) : List Str :=
  parts.foldl (fun acc seg => if seg = "..".data then acc.dropLast else acc ++ [seg]) base

/-- `SplitterWorker._write_file` (src/workers.py lines 779-871) in the path
model.  `outDir` is the resolved output directory (its absolute segments),
assumed to exist and be writable, so the fatal `FileNotFoundError` branch is
not taken.  `some (target, content)` models a performed write of `content`
at the resolved target; `none` models `return False` — nothing written and
no directory created (the containment rejection at lines 841-844 and the
empty-path rejections at lines 782-794).  The containment check at lines
829-831 also accepts a target equal to the resolved output directory itself
(reachable through `..` segments, e.g. `a/../../out` when the output
directory ends in `out`), but then `open(target, "wb")` at line 853 raises
`IsADirectoryError` and the `except OSError` at lines 863-867 returns
`False`, so that case is `none` too. -/
def write_file (outDir : List Str) (rel : Str) (content : Str) :
    Option (List Str × Str) :=
  if rel.isEmpty then none
  else
    let cleaned := cleanPath rel
    if cleaned.isEmpty then none
    else
      let target := resolveSegs outDir (pathParts cleaned)
      if outDir.isPrefixOf target && target != outDir then some (target, content)
      else none

-- ==========================================================================
-- SplitterWorker.run (src/workers.py lines 479-777)
-- ==========================================================================

/-- Hierarchy-tree sentinels (src/workers.py lines 19-20). -/
def TREE_START_DELIMITER : Str := "--- START FILE HIERARCHY ---".data

/-- See `TREE_START_DELIMITER`. -/
def TREE_END_DELIMITER : Str := "--- END FILE HIERARCHY ---".data

/-- The splitter's per-operation parse state (src/workers.py lines 600-607),
extended with the observable effects the proofs track: `written` is the
chronological log of performed writes (resolved target, content),
`created_file_paths` mirrors the code's set of raw captured paths recorded
for cleanup (line 702). -/
structure SplitState where
  current_file_path_relative : Str
  current_file_content_lines : List Str
  in_file_block : Bool
  just_started_block : Bool
  file_count : Nat
  written : List (List Str × Str)
  created_file_paths : List Str
deriving Repr, DecidableEq

/-- The parse state at the start of the main loop. -/
def initSplitState : SplitState :=
  { current_file_path_relative := []
    current_file_content_lines := []
    in_file_block := false
    just_started_block := false
    file_count := 0
    written := []
    created_file_paths := [] }

/-- One line of the parsing state machine (src/workers.py lines 646-711).
Outside a block, the stripped line is matched against the start pattern; an
empty or absolute captured path is rejected and the state is unchanged (a
path merely containing `../` is logged but accepted, the write-time
containment check being the final defence).  Inside a block, the one-shot
skip flag discards one line; a line whose strip equals the block's end
delimiter flushes the accumulated content through `write_file`; any other
line is accumulated verbatim. -/
def stepLine (F : MergeFormat) (outDir : List Str) (st : SplitState)
    (line : Str) : SplitState :=
  let line_stripped := pyStrip line
  if !st.in_file_block then
    match F.startCapture line_stripped with
    | none => st
    | some cap =>
      let potential := pyStrip cap
      if potential.isEmpty then st
      else if potential.head? = some '/' then st
      else
        { st with current_file_path_relative := potential
                  current_file_content_lines := []
                  in_file_block := true
                  just_started_block := F.skip_line_after_start }
  else
    if st.just_started_block then
      { st with just_started_block := false }
    else if line_stripped = F.get_end_delimiter st.current_file_path_relative then
      match write_file outDir st.current_file_path_relative
          st.current_file_content_lines.flatten with
      | some entry =>
        { st with current_file_path_relative := []
                  current_file_content_lines := []
                  in_file_block := false
                  just_started_block := false
                  file_count := st.file_count + 1
                  written := st.written ++ [entry]
                  created_file_paths :=
                    st.created_file_paths ++ [st.current_file_path_relative] }
      | none =>
        { st with current_file_path_relative := []
                  current_file_content_lines := []
                  in_file_block := false
                  just_started_block := false }
    else
      { st with current_file_content_lines := st.current_file_content_lines ++ [line] }

/-- The main loop over the decoded lines (src/workers.py lines 633-712),
parse state only. -/
def processLines (F : MergeFormat) (outDir : List Str) (st : SplitState)
    (ls : List Str) : SplitState :=
  ls.foldl (stepLine F outDir) st

/-- The end-of-input flush (src/workers.py lines 735-739): a still-open block
with a non-empty path is written out as an unterminated final block; the
counter grows only if the write succeeded. -/
def finishSplit (F : MergeFormat) (outDir : List Str) (st : SplitState) :
    List (List Str × Str) × Nat :=
  if st.in_file_block ∧ ¬st.current_file_path_relative.isEmpty then
    match write_file outDir st.current_file_path_relative
        st.current_file_content_lines.flatten with
    | some entry => (st.written ++ [entry], st.file_count + 1)
    | none => (st.written, st.file_count)
  else (st.written, st.file_count)

/-- Reading one binary line (split on `b'\n'` only, newline kept), as the
byte-wise loops at src/workers.py lines 515-523 and 546-553 do. -/
def takeLine : Str → Str
  | [] => []
  | c :: rest => if c = '\n' then ['\n'] else c :: takeLine rest

/-- The rest of the input after `takeLine`. -/
def dropLine : Str → Str
  | [] => []
  | c :: rest => if c = '\n' then rest else dropLine rest

/-- The tree-skipping loop (src/workers.py lines 544-579): read binary lines
until one strips to the end sentinel or input runs out.  Returns (rest of
the input, bytes consumed, number of loop iterations = cancellation-flag
reads, whether the end sentinel was found). -/
def skipTreeLoop (s : Str) : Str × Nat × Nat × Bool :=
  if h : s = [] then (s, 0, 1, false)
  else
    let l := takeLine s
    let r := dropLine s
    if pyStrip l = TREE_END_DELIMITER then (r, utf8Len l, 1, true)
    else
      let (rest, b, its, found) := skipTreeLoop r
      (rest, utf8Len l + b, its + 1, found)
termination_by s.length
decreasing_by
  have hgen : ∀ t : Str, (dropLine t).length ≤ t.length := by
    intro t
    induction t with
    | nil => simp [dropLine]
    | cons c rest ih =>
      rw [dropLine]
      split
      · simp
      · simpa using Nat.le_succ_of_le ih
  have h1 : (dropLine s).length ≤ s.length - 1 := by
    cases s with
    | nil => simp_all
    | cons c rest =>
      rw [dropLine]
      split
      · simp
      · simpa using hgen rest
  have h2 : 0 < s.length := List.length_pos.mpr h
  omega

/-- One read of the monotone cancellation flag: read number `i` returns
`true` iff no `stop()` arrived before it. -/
def runOk (cancelAt : Option Nat) (i : Nat) : Bool :=
  match cancelAt with
  | none => true
  | some k => i < k

/-- Decimal digits of a number (for the f-string messages). -/
def natStr (n : Nat) : Str := Nat.toDigits 10 n

/-- The terminal message of a successful split (src/workers.py line 745). -/
def splitSuccessMsg (F : MergeFormat) (outDir : List Str) (count : Nat) : Str :=
  "Split successful! ".data ++ natStr count ++ " files created in '".data ++
    (outDir.getLastD []) ++ "' (Format: ".data ++ F.name ++ ").".data

/-- The terminal message when no block was extracted (line 751). -/
def splitNoBlocksMsg (F : MergeFormat) : Str :=
  "Split finished, but no valid file blocks matching format '".data ++ F.name ++
    "' were found or extracted.".data

/-- Observable outcome of one split operation: the files on disk when it ends
(after cancellation cleanup, if any), the created-files counter, every
`progress` value emitted in order, and the terminal `finished` signal. -/
structure SplitRes where
  written : List (List Str × Str)
  file_count : Nat
  progress : List Nat
  success : Bool
  message : Str
  cancelled : Bool
deriving Repr, DecidableEq

/-- Main-loop state: parse state plus the byte counter and progress log
(src/workers.py lines 637-644). -/
structure MainState where
  parse : SplitState
  processed : Nat
  progress : List Nat
deriving Repr, DecidableEq

/-- One main-loop iteration: count the line's UTF-8 bytes, emit
`min(int(processed/total*100), 100)` when the total is positive, then run
the state machine on the line. -/
def mainStep (F : MergeFormat) (outDir : List Str) (total : Nat)
    (ms : MainState) (line : Str) : MainState :=
  let processed := ms.processed + utf8Len line
  let progress :=
    if 0 < total then ms.progress ++ [min (processed * 100 / total) 100]
    else ms.progress
  { parse := stepLine F outDir ms.parse line
    processed := processed
    progress := progress }

/-- Cleanup target of one tracked raw path (src/workers.py lines 720-724):
`self.output_dir.joinpath(raw).resolve()`.  Unlike `_write_file`, no
backslash replacement and no stripping happen here — `joinpath` cuts the raw
string at `/` only.  (Tracked paths are never absolute: absolute captures are
rejected before a block is entered.) -/
def cleanupTarget (outDir : List Str) (raw : Str) : List Str :=
  resolveSegs outDir (pathParts raw)

/-- The `finished(False, "Split cancelled.")` outcome: nothing (left) on
disk, the progress emitted so far. -/
def splitCancelledRes (prog : List Nat) : SplitRes :=
  { written := [], file_count := 0, progress := prog
    success := false, message := "Split cancelled.".data, cancelled := true }

/-- The tree-header phase of `SplitterWorker.run` (src/workers.py lines
512-597): read the first binary line; if it strips to the tree start
sentinel, skip binary lines to the end sentinel (one cancellation-flag read
per line, then one more at lines 581-586).  Returns either the cancelled
outcome or (rest of the input, bytes consumed, next read index, progress
emitted so far). -/
def splitTree (artifact : Str) (cancelAt : Option Nat) :
    SplitRes ⊕ (Str × Nat × Nat × List Nat) :=
  let total := utf8Len artifact
  let fl := takeLine artifact
  if pyStrip fl = TREE_START_DELIMITER then
    let r := skipTreeLoop (dropLine artifact)
    if !runOk cancelAt (r.2.2.1 - 1) then Sum.inl (splitCancelledRes [0])
    else
      let processed := utf8Len fl + r.2.1
      let prog1 : List Nat :=
        if r.2.2.2 ∧ 0 < total then [0, min (processed * 100 / total) 100] else [0]
      if !runOk cancelAt r.2.2.1 then Sum.inl (splitCancelledRes prog1)
      else
        let prog2 :=
          if 0 < total then prog1 ++ [min (processed * 100 / total) 100] else prog1
        Sum.inr (r.1, processed, r.2.2.1 + 1, prog2)
  else
    -- no tree: seek back to the start, reset the byte counter
    Sum.inr (artifact, 0, 0, if 0 < total then [0, 0] else [0])

/-- Number of decoded lines the main loop processes before a failed
cancellation-flag read stops it (the per-line read for line `i` has index
`t0 + 1 + i`). -/
def linesBudget (cancelAt : Option Nat) (t0 n : Nat) : Nat :=
  match cancelAt with
  | none => n
  | some k => min n (k - (t0 + 1))

/-- The main phase of `SplitterWorker.run` (src/workers.py lines 599-777):
one flag read after slurping the rest (line 609), one per line (line 634),
the post-loop read (line 715), cleanup of the tracked paths on cancellation
(lines 718-730), the unterminated-block flush (lines 735-739), and the
terminal outcome (lines 743-753) with the `finally` re-emission. -/
def splitMain (F : MergeFormat) (outDir : List Str) (total : Nat) (rest : Str)
    (processed t0 : Nat) (prog : List Nat) (cancelAt : Option Nat) : SplitRes :=
  if !runOk cancelAt t0 then splitCancelledRes prog
  else
    let ls := pySplitlines rest
    let n := ls.length
    let m := linesBudget cancelAt t0 n
    let ms := (ls.take m).foldl (mainStep F outDir total)
      { parse := initSplitState, processed := processed, progress := prog }
    let st := ms.parse
    if m < n || !runOk cancelAt (t0 + 1 + n) then
      let targets := st.created_file_paths.map (cleanupTarget outDir)
      { written := st.written.filter (fun e => !targets.contains e.1)
        file_count := st.file_count
        progress := ms.progress
        success := false
        message := "Split cancelled.".data
        cancelled := true }
    else
      let fin := finishSplit F outDir st
      let prog2 := ms.progress ++ [100] ++
        (if runOk cancelAt (t0 + 2 + n) then [100] else [])
      if 0 < fin.2 then
        { written := fin.1, file_count := fin.2, progress := prog2
          success := true, message := splitSuccessMsg F outDir fin.2
          cancelled := false }
      else
        { written := fin.1, file_count := fin.2, progress := prog2
          success := false, message := splitNoBlocksMsg F
          cancelled := false }

/-- `SplitterWorker.run` (src/workers.py lines 479-777) for an artifact that
opens and decodes successfully, against an existing writable output
directory: the tree-header phase followed by the main parsing phase. -/
def splitRun (F : MergeFormat) (outDir : List Str) (artifact : Str)
    (cancelAt : Option Nat) : SplitRes :=
  match splitTree artifact cancelAt with
  | Sum.inl res => res
  | Sum.inr (rest, processed, t0, prog) =>
    splitMain F outDir (utf8Len artifact) rest processed t0 prog cancelAt

/-- The text the main parsing loop reads: what is left of the artifact after
the tree-header phase has positioned the file cursor (the whole artifact
when the first line is not the tree sentinel — lines 589-597 seek back to
the start — and everything after the skipped header lines otherwise);
line 607 then slurps exactly this remainder.  Without cancellation the tree
phase always hands over, so the `Sum.inl` branch is unreachable. -/
def splitBody (artifact : Str) : Str :=
  match splitTree artifact none with
  | Sum.inl _ => artifact
  | Sum.inr r => r.1

-- ==========================================================================
-- MergerWorker.run, discovery phase (src/workers.py lines 178-316)
-- ==========================================================================

/-- One file of the modelled (symlink-free) filesystem: its resolved absolute
path segments and its stat size. -/
structure FSFile where
  path : List Str
  size : Nat
deriving Repr, DecidableEq

/-- The filesystem is a finite list of files; its order stands for the order
in which `os.walk` yields them (arbitrary, and quantified over in the
theorems). -/
abbrev FileSystem := List FSFile

/-- `item_path.is_file()`. -/
def isFile (fs : FileSystem) (p : List Str) : Bool := fs.any (fun f => f.path == p)

/-- `item_path.stat().st_size` (never failing in the model). -/
def statSize (fs : FileSystem) (p : List Str) : Nat :=
  ((fs.find? (fun f => f.path == p)).map FSFile.size).getD 0

/-- The files below a directory, in walk order.  A directory with no files
under it behaves like a missing one: either way no record is produced. -/
def walkFiles (fs : FileSystem) (dir : List Str) : List FSFile :=
  fs.filter (fun f => dir.isPrefixOf f.path && f.path != dir)

/-- `item_path.is_dir()`, up to empty directories (see `walkFiles`). -/
def isDir (fs : FileSystem) (dir : List Str) : Bool := !(walkFiles fs dir).isEmpty

/-- The `item_type` of a selection entry ("file" / "folder"; "folder-root" is
handled identically to "folder" at line 246). -/
inductive ItemType
  | file
  | folder
deriving Repr, DecidableEq

/-- One `(item_type, item_path_str, base_path_str)` selection entry, already
resolved (lines 189-191; an empty base falls back to the item's parent
before this model applies). -/
structure SelItem where
  type : ItemType
  path : List Str
  base : List Str
deriving Repr, DecidableEq

/-- `p.relative_to(base)` for resolved absolute paths: succeeds iff the base's
segments are a prefix, returning the remaining segments. -/
def relTo (p base : List Str) : Option (List Str) :=
  if base.isPrefixOf p then some (p.drop base.length) else none

/-- Bare filename fallback: `pathlib.Path(p.name)`. -/
def lastSeg (p : List Str) : List Str := p.drop (p.length - 1)

/-- The relative path a selection entry assigns to a discovered file
(lines 205-218 for "file" entries: `relative_to(base)`, falling back to
`relative_to(parent)` — which is exactly the bare filename; lines 260-273
for "folder" entries: `relative_to(base)`, then `relative_to(item_path)`,
then the bare filename). -/
def fileRel (item : SelItem) (p : List Str) : List Str :=
  match item.type with
  | .file => (relTo p item.base).getD (lastSeg p)
  | .folder => (relTo p item.base).getD ((relTo p item.path).getD (lastSeg p))

/-- One discovered file record: `(absolute path, relative path, size)`. -/
structure DiscFile where
  abs : List Str
  rel : List Str
  size : Nat
deriving Repr, DecidableEq

/-- Processing one selection entry with the running
`encountered_resolved_paths` set and record list (lines 183-305). -/
def discoverStep (fs : FileSystem) (acc : List (List Str) × List DiscFile)
    (item : SelItem) : List (List Str) × List DiscFile :=
  match item.type with
  | .file =>
    if isFile fs item.path then
      if acc.1.contains item.path then acc
      else (acc.1 ++ [item.path],
            acc.2 ++ [⟨item.path, fileRel item item.path, statSize fs item.path⟩])
    else acc
  | .folder =>
    if isDir fs item.path then
      (walkFiles fs item.path).foldl
        (fun acc2 f =>
          if acc2.1.contains f.path then acc2
          else (acc2.1 ++ [f.path], acc2.2 ++ [⟨f.path, fileRel item f.path, f.size⟩]))
        acc
    else acc

/-- `Path.as_posix()` of a relative segment list (`'.'` for an empty one),
the sort key of line 316. -/
def posixOf (segs : List Str) : Str :=
  match segs with
  | [] => ['.']
  | _ => List.intercalate ['/'] segs

/-- The discovery phase: scan all entries, then sort the records by POSIX
relative path (lines 183-316). -/
def discover (fs : FileSystem) (items : List SelItem) : List DiscFile :=
  ((items.foldl (discoverStep fs) ([], [])).2).insertionSort
    (fun a b => strLe (posixOf a.rel) (posixOf b.rel) = true)

/-- Whether a selection entry can contribute the file at `p` (used to state
the deduplication claim). -/
def reaches (fs : FileSystem) (item : SelItem) (p : List Str) : Bool :=
  match item.type with
  | .file => item.path == p && isFile fs p
  | .folder => (walkFiles fs item.path).any (fun f => f.path == p)

-- ==========================================================================
-- MergerWorker.run, writing phase with progress and cancellation
-- (src/workers.py lines 314-454)
-- ==========================================================================

/-- Observable outcome of one merge operation (writing phase): emitted
progress values, terminal success flag, and the output file's content
(`none`: never created, or deleted by the cancellation cleanup of
lines 433-441). -/
structure MergerRes where
  progress : List Nat
  success : Bool
  outputFile : Option Str
  cancelled : Bool
deriving Repr, DecidableEq

/-- The writing phase of `MergerWorker.run` on the scanned
(relative path, content, stat size) triples, with `include_tree=False`.
Cancellation-flag reads are numbered: one read per file-loop iteration
(line 359), the post-`with` read (line 433), the `finally` read (line 453).
Progress: `emit(0)` at line 325, one capped emission per file processed
(lines 420-429: cumulative bytes over the total when it is positive, else
processed file count over total file count), `emit(100)` at line 443 on the
success path and again in `finally` while still running.
`filesBudget` is the number of files the write loop processes before a
failed flag read stops it (the per-file read for file `i` has index `i`). -/
def filesBudget (cancelAt : Option Nat) (n : Nat) : Nat :=
  match cancelAt with
  | none => n
  | some k => min n k

/-- One iteration of the merge write loop (src/workers.py lines 358-429) on
the accumulator `(output so far, cumulative bytes, files done, progress log)`:
append the file's block and, when it is not the last of the `n` files, the
separator; then emit the capped percentage (cumulative bytes over `total`
when positive, else file count over `n`). -/
def mergeStep (F : MergeFormat) (n total : Nat)
    (acc : Str × Nat × Nat × List Nat) (f : Str × Str × Nat) :
    Str × Nat × Nat × List Nat :=
  let out := acc.1 ++ mergeBlock F f.1 f.2.1 ++
    (if acc.2.2.1 + 1 < n then F.file_separator else [])
  let psize := acc.2.1 + f.2.2
  let pct := if 0 < total then psize * 100 / total else (acc.2.2.1 + 1) * 100 / n
  (out, psize, acc.2.2.1 + 1, acc.2.2.2 ++ [min pct 100])

/-- The writing phase of `MergerWorker.run` (src/workers.py lines 314-454);
see the comment on `filesBudget` above for the read/emission numbering. -/
def mergerRun (F : MergeFormat) (files : List (Str × Str × Nat))
    (cancelAt : Option Nat) : MergerRes :=
  let sortedF := files.insertionSort (fun a b => strLe a.1 b.1 = true)
  if sortedF.isEmpty then
    { progress := if runOk cancelAt 0 then [100] else []
      success := false, outputFile := none, cancelled := false }
  else
    let total := (sortedF.map (fun f => f.2.2)).sum
    let n := sortedF.length
    let m := filesBudget cancelAt n
    let r := (sortedF.take m).foldl (mergeStep F n total) ([], 0, 0, [0])
    let postIdx := if m < n then m + 1 else n
    if m < n || !runOk cancelAt postIdx then
      { progress := r.2.2.2, success := false, outputFile := none, cancelled := true }
    else
      { progress := r.2.2.2 ++ [100] ++ (if runOk cancelAt (n + 1) then [100] else [])
        success := true, outputFile := some r.1, cancelled := false }

-- concrete inputs used by claim witnesses and counterexamples --------------

/-- A hand-crafted artifact whose first block's captured path `a/../../escape.txt`
resolves outside the output directory, followed by a valid block. -/
def escapeArtifact : Str :=
  "--- START FILE: a/../../escape.txt ---\nboo\n--- END FILE: a/../../escape.txt ---\n\n--- START FILE: ok.txt ---\nfine\n--- END FILE: ok.txt ---\n".data

/-- An artifact whose single, unterminated block captures the path `...`,
which `_write_file` cleans to the empty string. -/
def dotsArtifact : Str := "--- START FILE: ... ---\nhello\n".data

/-- An artifact whose single block captures the path `a.txt.` (trailing dot):
`_write_file` cleans it to `a.txt`, but the cancellation cleanup looks for
`a.txt.`. -/
def trailingDotArtifact : Str :=
  "--- START FILE: a.txt. ---\nhello\n--- END FILE: a.txt. ---\n".data

-- C3 concrete scenario -----------------------------------------------------

/-- The two files of the spec's concrete scenario. -/
def c3Files : List (Str × Str) :=
  [("a.txt".data, "hello".data), ("sub/b.txt".data, "world\n".data)]

/-- The artifact the spec displays for the concrete scenario: a single empty
line between the two blocks. -/
def c3SpecArtifact : Str :=
  "--- START FILE: a.txt ---\nhello\n--- END FILE: a.txt ---\n\n--- START FILE: sub/b.txt ---\nworld\n--- END FILE: sub/b.txt ---\n".data

/-- The artifact the writer actually produces: the end delimiter's newline
plus the two-newline file separator leave TWO empty lines between blocks. -/
def c3CodeArtifact : Str :=
  "--- START FILE: a.txt ---\nhello\n--- END FILE: a.txt ---\n\n\n--- START FILE: sub/b.txt ---\nworld\n--- END FILE: sub/b.txt ---\n".data

/-- Concrete filesystem and selection for the C5 witness: the file
`/home/proj/sub/a.txt` is selected directly (base `/home/proj/sub`) and is
also reachable through the selected folder `/home/proj` (base `/home/proj`). -/
def c5Fs : FileSystem :=
  [⟨["home".data, "proj".data, "sub".data, "a.txt".data], 5⟩,
   ⟨["home".data, "proj".data, "b.txt".data], 3⟩]

/-- See `c5Fs`. -/
def c5Items : List SelItem :=
  [⟨.file, ["home".data, "proj".data, "sub".data, "a.txt".data],
    ["home".data, "proj".data, "sub".data]⟩,
   ⟨.folder, ["home".data, "proj".data], ["home".data, "proj".data]⟩]

/-- See `c5Fs`. -/
def c5P : List Str := ["home".data, "proj".data, "sub".data, "a.txt".data]

-- ==========================================================================
-- Round trip (C1): valid paths, well-behaved formats
-- ==========================================================================

/-- Relative paths for which the round trip is exact: non-empty, free of
line terminators and backslashes, with no whitespace and no `.`/`/`/space at
either end (so `str.strip()` in the parser and `strip("./ ")` in
`_write_file` leave them unchanged and they are not absolute), with no `..`
segment (non-traversing), and not starting with two backquotes (which the
fenced start pattern refuses). -/
def validPath (p : Str) : Bool :=
  !p.isEmpty &&
  p.all (fun c => !isNLChar c && !(c == '\\')) &&
  p.head?.all (fun c => !pySpace c && !isDotSlashSpace c) &&
  p.getLast?.all (fun c => !pySpace c && !isDotSlashSpace c) &&
  (pathParts p).all (fun seg => !(seg == "..".data)) &&
  !("``".data.isPrefixOf p)

/-- The parse state between two blocks: outside any block, with the counter,
write log, and cleanup list accumulated so far. -/
def betweenState (n : Nat) (w : List (List Str × Str)) (cf : List Str) :
    SplitState :=
  { current_file_path_relative := []
    current_file_content_lines := []
    in_file_block := false
    just_started_block := false
    file_count := n
    written := w
    created_file_paths := cf }

/-- The facts about a format that the round-trip proof uses, all verified
for the three entries of `MERGE_FORMATS`: the separator is a blank line, no
content suffix, the splitter-side end delimiter is the merger-side one, the
start and end delimiter lines are terminator-free and strip to themselves,
the start pattern recovers the path, an empty line never opens a block, the
content prefix is a single skipped line exactly when `skip_line_after_start`
is set, and a start delimiter line is never the hierarchy-tree sentinel. -/
structure GoodFormat (F : MergeFormat) : Prop where
  sep_eq : F.file_separator = ['\n', '\n']
  suffix_nil : F.content_suffix = []
  endOf_eq : ∀ p, F.endOf p = F.get_end_delimiter p
  start_noNL : ∀ p, validPath p = true → ∀ c ∈ F.start p, isNLChar c = false
  start_strip : ∀ p, validPath p = true → pyStrip (F.start p) = F.start p
  capture_start : ∀ p, validPath p = true →
    ∃ cap, F.startCapture (F.start p) = some cap ∧ pyStrip cap = p
  capture_empty : F.startCapture [] = none
  end_noNL : ∀ p, validPath p = true →
    ∀ c ∈ F.get_end_delimiter p, isNLChar c = false
  end_strip : ∀ p, validPath p = true →
    pyStrip (F.get_end_delimiter p) = F.get_end_delimiter p
  prefix_cases : (F.skip_line_after_start = true ∧
      pySplitlines F.content_prefix = [F.content_prefix] ∧
      F.content_prefix.getLast? = some '\n') ∨
    (F.skip_line_after_start = false ∧ F.content_prefix = [])
  start_ne_tree : ∀ p, validPath p = true → F.start p ≠ TREE_START_DELIMITER

/-- The two files of the spec's concrete scenario, reused as the round-trip
witness input. -/
def c1Files : List (Str × Str) :=
  [("a.txt".data, "hello".data), ("sub/b.txt".data, "world\n".data)]

-- ==========================================================================
-- Theorems
-- ==========================================================================

-- basic facts about the string model --------------------------------------

theorem pySplitlines_crlf (rest : Str) :
    pySplitlines ('\r' :: '\n' :: rest) = ['\r', '\n'] :: pySplitlines rest := rfl

set_option maxHeartbeats 1000000 in
/-- Unfolding of `pySplitlines` on a cons that is not a `"\r\n"` pair. -/
theorem pySplitlines_cons (c : Char) (rest : Str)
    (h : ¬(c = '\r' ∧ rest.head? = some '\n')) :
    pySplitlines (c :: rest) =
      if isNLChar c then [c] :: pySplitlines rest
      else match pySplitlines rest with
        | [] => [[c]]
        | l :: ls => (c :: l) :: ls := by
  rw [pySplitlines.eq_3]
  intro r h1 h2
  subst h2
  exact h ⟨h1, rfl⟩

theorem not_crlf_of_curried {c : Char} {rest : Str}
    (h1 : ∀ r : Str, c = '\r' → rest = '\n' :: r → False) :
    ¬(c = '\r' ∧ rest.head? = some '\n') := by
  rintro ⟨hc, hh⟩
  cases rest with
  | nil => simp at hh
  | cons d r =>
    simp only [List.head?_cons, Option.some.injEq] at hh
    exact h1 r hc (by rw [hh])

theorem pySplitlines_flatten : ∀ s : Str, (pySplitlines s).flatten = s := by
  intro s
  induction s using pySplitlines.induct with
  | case1 => rfl
  | case2 rest ih =>
    rw [pySplitlines_crlf]
    simpa using ih
  | case3 c rest h1 h2 ih =>
    rw [pySplitlines_cons c rest (not_crlf_of_curried h1)]
    simp_all
  | case4 c rest h1 h2 hnil ih =>
    rw [pySplitlines_cons c rest (not_crlf_of_curried h1)]
    simp_all
  | case5 c rest h1 h2 l ls hcons ih =>
    rw [pySplitlines_cons c rest (not_crlf_of_curried h1)]
    simp_all

theorem pySplitlines_ne_nil {s : Str} (h : s ≠ []) : pySplitlines s ≠ [] := by
  intro hc
  have := pySplitlines_flatten s
  rw [hc] at this
  exact h this.symm

/-- Splitting distributes over append at a `'\n'` boundary: the parsers below
use this to cut a merged artifact into its per-file blocks. -/
theorem pySplitlines_append (a : Str) :
    ∀ b, a.getLast? = some '\n' →
      pySplitlines (a ++ b) = pySplitlines a ++ pySplitlines b := by
  induction a using pySplitlines.induct with
  | case1 => intro b h; simp at h
  | case2 rest ih =>
    intro b hlast
    cases rest with
    | nil =>
      rw [List.cons_append, List.cons_append, List.nil_append, pySplitlines_crlf]
      rfl
    | cons e rest' =>
      have hlast' : (e :: rest').getLast? = some '\n' := by simpa using hlast
      have ih' := ih b hlast'
      simp only [List.cons_append] at ih' ⊢
      rw [pySplitlines_crlf, pySplitlines_crlf, ih']
      simp
  | case3 c rest h1 h2 ih =>
    intro b hlast
    cases rest with
    | nil =>
      have hcn : c = '\n' := by simpa using hlast
      subst hcn
      rw [List.cons_append, List.nil_append]
      rw [pySplitlines_cons '\n' b (by simp)]
      rw [if_pos (by simp [isNLChar])]
      rfl
    | cons d rest' =>
      have hlast' : (d :: rest').getLast? = some '\n' := by simpa using hlast
      have h1' : ¬(c = '\r' ∧ ((d :: rest') ++ b).head? = some '\n') := by
        have := not_crlf_of_curried h1
        simpa using this
      rw [List.cons_append, pySplitlines_cons c _ h1', if_pos h2]
      rw [pySplitlines_cons c _ (not_crlf_of_curried h1), if_pos h2]
      rw [ih b hlast']
      simp
  | case4 c rest h1 h2 hnil ih =>
    intro b hlast
    have hrne : rest ≠ [] := by
      intro hr; subst hr
      have : c = '\n' := by simpa using hlast
      subst this; simp [isNLChar] at h2
    exact absurd (pySplitlines_ne_nil hrne) (by simp [hnil])
  | case5 c rest h1 h2 l ls hcons ih =>
    intro b hlast
    have hrne : rest ≠ [] := by
      intro hr; subst hr
      have : c = '\n' := by simpa using hlast
      subst this; simp [isNLChar] at h2
    have hlast' : rest.getLast? = some '\n' := by
      cases rest with
      | nil => exact absurd rfl hrne
      | cons d rest' => simpa using hlast
    have h1' : ¬(c = '\r' ∧ (rest ++ b).head? = some '\n') := by
      intro hcontra
      apply not_crlf_of_curried h1
      refine ⟨hcontra.1, ?_⟩
      cases rest with
      | nil => exact absurd rfl hrne
      | cons d rest' => simpa using hcontra.2
    rw [List.cons_append, pySplitlines_cons c _ h1', if_neg (by simp [h2])]
    rw [pySplitlines_cons c _ (not_crlf_of_curried h1), if_neg (by simp [h2]), hcons]
    rw [ih b hlast', hcons]
    simp

/-- A terminator-free string followed by `"\n"` is a single line. -/
theorem pySplitlines_line (s : Str) (h : ∀ c ∈ s, isNLChar c = false) :
    pySplitlines (s ++ ['\n']) = [s ++ ['\n']] := by
  induction s with
  | nil =>
    rw [List.nil_append]
    rw [pySplitlines_cons '\n' [] (by simp)]
    simp [pySplitlines, isNLChar]
  | cons c rest ih =>
    have hc : isNLChar c = false := h c (by simp)
    have hcr : c ≠ '\r' := by
      intro hr; subst hr; simp [isNLChar] at hc
    rw [List.cons_append]
    rw [pySplitlines_cons c _ (by simp [hcr])]
    rw [if_neg (by simp [hc])]
    rw [ih (fun d hd => h d (by simp [hd]))]

-- pyStrip facts ------------------------------------------------------------

theorem pyStrip_append_space (s t : Str) (ht : ∀ c ∈ t, pySpace c = true) :
    pyStrip (s ++ t) = pyStrip s := by
  unfold pyStrip
  rw [List.dropWhile_append]
  split
  case isTrue h =>
    rw [List.dropWhile_eq_nil_iff.mpr ht]
    simp only [List.isEmpty_iff] at h
    rw [h]
  case isFalse h =>
    rw [List.reverse_append]
    rw [List.dropWhile_append]
    rw [List.dropWhile_eq_nil_iff.mpr (by intro c hc; exact ht c (by simpa using hc))]
    simp

theorem pyStrip_no_space_bounds (s : Str)
    (h1 : ∀ c, s.head? = some c → pySpace c = false)
    (h2 : ∀ c, s.getLast? = some c → pySpace c = false) : pyStrip s = s := by
  unfold pyStrip
  have hd : s.dropWhile pySpace = s := by
    cases s with
    | nil => rfl
    | cons c rest =>
      rw [List.dropWhile_cons]
      rw [h1 c (by simp)]
      simp
  rw [hd]
  have hd2 : s.reverse.dropWhile pySpace = s.reverse := by
    cases hr : s.reverse with
    | nil => rfl
    | cons c rest =>
      rw [List.dropWhile_cons]
      have : s.getLast? = some c := by
        rw [← List.head?_reverse, hr]; rfl
      rw [h2 c this]
      simp
  rw [hd2, List.reverse_reverse]

theorem pyStrip_length_le (s : Str) : (pyStrip s).length ≤ s.length := by
  unfold pyStrip
  calc ((s.dropWhile pySpace).reverse.dropWhile pySpace).reverse.length
      = ((s.dropWhile pySpace).reverse.dropWhile pySpace).length := by simp
    _ ≤ (s.dropWhile pySpace).reverse.length := (List.dropWhile_sublist _).length_le
    _ = (s.dropWhile pySpace).length := by simp
    _ ≤ s.length := (List.dropWhile_sublist _).length_le

/-- If stripping is the identity then the first character is not whitespace. -/
theorem head_not_space_of_pyStrip_eq {s : Str} (h : pyStrip s = s) :
    ∀ c, s.head? = some c → pySpace c = false := by
  intro c hc
  by_contra hsp
  simp only [Bool.not_eq_false] at hsp
  cases s with
  | nil => simp at hc
  | cons d rest =>
    simp only [List.head?_cons, Option.some.injEq] at hc
    have hspd : pySpace d = true := by rw [hc]; exact hsp
    have hlen : (pyStrip (d :: rest)).length ≤ rest.length := by
      unfold pyStrip
      rw [List.dropWhile_cons, if_pos (by simp [hspd])]
      calc ((rest.dropWhile pySpace).reverse.dropWhile pySpace).reverse.length
          = ((rest.dropWhile pySpace).reverse.dropWhile pySpace).length := by simp
        _ ≤ (rest.dropWhile pySpace).reverse.length := (List.dropWhile_sublist _).length_le
        _ = (rest.dropWhile pySpace).length := by simp
        _ ≤ rest.length := (List.dropWhile_sublist _).length_le
    rw [h] at hlen
    simp at hlen

/-- If stripping is the identity then the last character is not whitespace. -/
theorem last_not_space_of_pyStrip_eq {s : Str} (h : pyStrip s = s) :
    ∀ c, s.getLast? = some c → pySpace c = false := by
  intro c hc
  by_contra hsp
  simp only [Bool.not_eq_false] at hsp
  have hsne : s ≠ [] := by intro hn; subst hn; simp at hc
  have hlen : (pyStrip s).length < s.length := by
    unfold pyStrip
    by_cases ht : s.dropWhile pySpace = []
    · rw [ht]
      simp only [List.reverse_nil, List.dropWhile_nil, List.length_nil]
      exact List.length_pos.mpr hsne
    · have hsuf : s.dropWhile pySpace <:+ s := List.dropWhile_suffix pySpace
      have hlast : (s.dropWhile pySpace).getLast? = some c := by
        obtain ⟨pre, hpre⟩ := hsuf
        rw [← hpre] at hc
        rw [List.getLast?_append_of_ne_nil _ ht] at hc
        exact hc
      have hhead : (s.dropWhile pySpace).reverse.head? = some c := by
        rw [List.head?_reverse]; exact hlast
      obtain ⟨d, rest, hdr⟩ := List.exists_cons_of_ne_nil
        (by simpa using ht : (s.dropWhile pySpace).reverse ≠ [])
      have hd : d = c := by
        rw [hdr] at hhead; simpa using hhead
      subst hd
      rw [hdr, List.dropWhile_cons, if_pos (by simp [hsp])]
      have h1 : (List.dropWhile pySpace rest).length ≤ rest.length :=
        (List.dropWhile_sublist _).length_le
      have h2 : rest.length + 1 = (s.dropWhile pySpace).length := by
        have := congrArg List.length hdr
        simpa using this.symm
      have h3 : (s.dropWhile pySpace).length ≤ s.length := (List.dropWhile_sublist _).length_le
      simp only [List.length_reverse]
      omega
  rw [h] at hlen
  omega

-- lexicographic order facts (for the sort of discovered files) -------------

theorem strLt_irrefl : ∀ x : Str, strLt x x = false := by
  intro x
  induction x with
  | nil => rfl
  | cons a as ih => simp [strLt, ih]

theorem strLt_trans :
    ∀ x y z : Str, strLt x y = true → strLt y z = true → strLt x z = true := by
  intro x
  induction x with
  | nil =>
    intro y z hxy hyz
    cases y <;> cases z <;> simp_all [strLt]
  | cons a as ih =>
    intro y z hxy hyz
    cases y with
    | nil => simp [strLt] at hxy
    | cons b bs =>
      cases z with
      | nil => simp [strLt] at hyz
      | cons c cs =>
        simp only [strLt, Bool.or_eq_true, Bool.and_eq_true, decide_eq_true_eq] at *
        rcases hxy with h1 | ⟨h1, h2⟩ <;> rcases hyz with h3 | ⟨h3, h4⟩
        · exact Or.inl (lt_trans h1 h3)
        · subst h3; exact Or.inl h1
        · subst h1; exact Or.inl h3
        · subst h1; exact Or.inr ⟨h3, ih bs cs h2 h4⟩

theorem strLt_connex : ∀ x y : Str, strLt x y = true ∨ x = y ∨ strLt y x = true := by
  intro x
  induction x with
  | nil =>
    intro y
    cases y <;> simp [strLt]
  | cons a as ih =>
    intro y
    cases y with
    | nil => simp [strLt]
    | cons b bs =>
      rcases lt_trichotomy a b with h | h | h
      · left; simp [strLt, h]
      · subst h
        rcases ih bs with h2 | h2 | h2
        · left; simp [strLt, h2]
        · right; left; rw [h2]
        · right; right; simp [strLt, h2]
      · right; right; simp [strLt, h]

theorem strLt_asymm {x y : Str} (h : strLt x y = true) : strLt y x = false := by
  by_contra hc
  simp only [Bool.not_eq_false] at hc
  have := strLt_trans x y x h hc
  rw [strLt_irrefl] at this
  exact Bool.false_ne_true this

theorem strLe_trans {x y z : Str} (h1 : strLe x y = true) (h2 : strLe y z = true) :
    strLe x z = true := by
  unfold strLe at *
  simp only [Bool.not_eq_true'] at h1 h2 ⊢
  by_contra hc
  simp only [Bool.not_eq_false] at hc
  rcases strLt_connex z y with h | h | h
  · rw [h] at h2; exact absurd h2 (by simp)
  · rw [h] at hc; rw [hc] at h1; exact absurd h1 (by simp)
  · have hyx := strLt_trans y z x h hc
    rw [hyx] at h1
    exact absurd h1 (by simp)

theorem strLe_total (x y : Str) : (strLe x y || strLe y x) = true := by
  unfold strLe
  rcases strLt_connex x y with h | h | h
  · rw [strLt_asymm h]; simp
  · subst h; rw [strLt_irrefl]; simp
  · rw [strLt_asymm h]; simp

theorem dropLine_length_le (s : Str) : (dropLine s).length ≤ s.length := by
  induction s with
  | nil => simp [dropLine]
  | cons c rest ih =>
    rw [dropLine]
    split
    · simp
    · simpa using Nat.le_succ_of_le ih

-- ==========================================================================
-- Facts about _write_file and the containment invariant
-- ==========================================================================

theorem write_file_some {outDir : List Str} {rel c : Str} {e : List Str × Str}
    (h : write_file outDir rel c = some e) :
    outDir <+: e.1 ∧ e.2 = c ∧
      e.1 = resolveSegs outDir (pathParts (cleanPath rel)) := by
  unfold write_file at h
  split at h
  · exact absurd h (by simp)
  · dsimp only at h
    split at h
    · exact absurd h (by simp)
    · split at h
      case isTrue hpre =>
        have he := Option.some.inj h
        refine ⟨?_, ?_, ?_⟩
        · rw [← he]
          exact List.isPrefixOf_iff_prefix.mp ((Bool.and_eq_true _ _).mp hpre).1
        · rw [← he]
        · rw [← he]
      case isFalse => exact absurd h (by simp)

theorem write_file_none_of_escape {outDir : List Str} {rel c : Str}
    (h : ¬ outDir <+: resolveSegs outDir (pathParts (cleanPath rel))) :
    write_file outDir rel c = none := by
  unfold write_file
  split
  · rfl
  · dsimp only
    split
    · rfl
    · rw [if_neg (fun hb =>
        h (List.isPrefixOf_iff_prefix.mp ((Bool.and_eq_true _ _).mp hb).1))]

/-- The `written` log of one parser step either is unchanged or grows by one
successful `write_file` result. -/
theorem stepLine_written (F : MergeFormat) (outDir : List Str) (st : SplitState)
    (line : Str) :
    (stepLine F outDir st line).written = st.written ∨
    ∃ entry, write_file outDir st.current_file_path_relative
        st.current_file_content_lines.flatten = some entry ∧
      (stepLine F outDir st line).written = st.written ++ [entry] := by
  simp only [stepLine]
  split
  · split
    case h_1 => left; rfl
    case h_2 cap heq =>
      split
      · left; rfl
      · split
        · left; rfl
        · left; rfl
  · split
    · left; rfl
    · split
      · split
        case h_1 entry heq => right; exact ⟨entry, heq, rfl⟩
        case h_2 heq => left; rfl
      · left; rfl

theorem processLines_written_prefix (F : MergeFormat) (outDir : List Str)
    (ls : List Str) :
    ∀ st : SplitState, (∀ e ∈ st.written, outDir <+: e.1) →
      ∀ e ∈ (processLines F outDir st ls).written, outDir <+: e.1 := by
  induction ls with
  | nil => intro st h e he; exact h e he
  | cons l rest ih =>
    intro st h e he
    refine ih (stepLine F outDir st l) ?_ e he
    intro e' he'
    rcases stepLine_written F outDir st l with hw | ⟨entry, hwf, hw⟩
    · rw [hw] at he'; exact h e' he'
    · rw [hw] at he'
      rcases List.mem_append.mp he' with h1 | h1
      · exact h e' h1
      · have : e' = entry := by simpa using h1
        subst this
        exact (write_file_some hwf).1

theorem finishSplit_written_prefix (F : MergeFormat) (outDir : List Str)
    (st : SplitState) (h : ∀ e ∈ st.written, outDir <+: e.1) :
    ∀ e ∈ (finishSplit F outDir st).1, outDir <+: e.1 := by
  intro e he
  unfold finishSplit at he
  split at he
  · split at he
    case h_1 entry hw =>
      rcases List.mem_append.mp he with h1 | h1
      · exact h e h1
      · have : e = entry := by simpa using h1
        subst this
        exact (write_file_some hw).1
    case h_2 => exact h e he
  · exact h e he

/-- The main loop's parse component is `processLines`. -/
theorem foldl_mainStep_parse (F : MergeFormat) (outDir : List Str) (total : Nat)
    (ls : List Str) :
    ∀ ms : MainState, (ls.foldl (mainStep F outDir total) ms).parse =
      processLines F outDir ms.parse ls := by
  induction ls with
  | nil => intro ms; rfl
  | cons l rest ih =>
    intro ms
    rw [List.foldl_cons, ih]
    rfl

theorem splitMain_written_prefix (F : MergeFormat) (outDir : List Str)
    (total : Nat) (rest : Str) (processed t0 : Nat) (prog : List Nat)
    (cancelAt : Option Nat) :
    ∀ e ∈ (splitMain F outDir total rest processed t0 prog cancelAt).written,
      outDir <+: e.1 := by
  intro e he
  unfold splitMain at he
  split at he
  · simp [splitCancelledRes] at he
  · dsimp only at he
    have hparse := foldl_mainStep_parse F outDir total
      ((pySplitlines rest).take (linesBudget cancelAt t0 (pySplitlines rest).length))
      { parse := initSplitState, processed := processed, progress := prog }
    have hinv : ∀ e' ∈ (((pySplitlines rest).take
        (linesBudget cancelAt t0 (pySplitlines rest).length)).foldl
          (mainStep F outDir total)
          { parse := initSplitState, processed := processed, progress := prog }).parse.written,
        outDir <+: e'.1 := by
      rw [hparse]
      exact processLines_written_prefix F outDir _ initSplitState
        (by intro e' he'; simp [initSplitState] at he')
    split at he
    · exact hinv e (List.mem_filter.mp he).1
    · split at he
      · exact finishSplit_written_prefix F outDir _ hinv e he
      · exact finishSplit_written_prefix F outDir _ hinv e he

/-- A `Sum.inl` outcome of the tree phase is the cancelled result: nothing
is on disk. -/
theorem splitTree_inl_written {artifact : Str} {cancelAt : Option Nat}
    {res : SplitRes} (heq : splitTree artifact cancelAt = Sum.inl res) :
    res.written = [] := by
  simp only [splitTree] at heq
  split at heq
  · split at heq
    · cases heq; rfl
    · split at heq
      · cases heq; rfl
      · cases heq
  · cases heq

/-- Every file the split run leaves on disk is at or below the resolved
output directory, whatever the artifact, format and cancellation schedule. -/
theorem splitRun_written_prefix (F : MergeFormat) (outDir : List Str)
    (artifact : Str) (cancelAt : Option Nat) :
    ∀ e ∈ (splitRun F outDir artifact cancelAt).written, outDir <+: e.1 := by
  intro e he
  unfold splitRun at he
  split at he
  case h_1 res heq =>
    rw [splitTree_inl_written heq] at he
    simp at he
  case h_2 rest processed t0 prog heq =>
    exact splitMain_written_prefix F outDir (utf8Len artifact) rest processed
      t0 prog cancelAt e he

/-- With no cancellation, the main phase reduces to the line parser followed
by the end-of-input flush; the run is not cancelled and succeeds exactly
when its created-file counter is positive. -/
theorem splitMain_none_eval (F : MergeFormat) (outDir : List Str)
    (total : Nat) (rest : Str) (processed t0 : Nat) (prog : List Nat) :
    (splitMain F outDir total rest processed t0 prog none).written =
      (finishSplit F outDir
        (processLines F outDir initSplitState (pySplitlines rest))).1 ∧
    (splitMain F outDir total rest processed t0 prog none).file_count =
      (finishSplit F outDir
        (processLines F outDir initSplitState (pySplitlines rest))).2 ∧
    (splitMain F outDir total rest processed t0 prog none).cancelled = false ∧
    (splitMain F outDir total rest processed t0 prog none).success =
      decide (0 < (finishSplit F outDir
        (processLines F outDir initSplitState (pySplitlines rest))).2) ∧
    (splitMain F outDir total rest processed t0 prog none).message =
      (if 0 < (finishSplit F outDir
          (processLines F outDir initSplitState (pySplitlines rest))).2
        then splitSuccessMsg F outDir
          (finishSplit F outDir
            (processLines F outDir initSplitState (pySplitlines rest))).2
        else splitNoBlocksMsg F) := by
  simp only [splitMain, runOk, linesBudget, Bool.not_true, List.take_length]
  rw [if_neg (by simp), if_neg (by simp), foldl_mainStep_parse]
  dsimp only
  split
  case isTrue h => exact ⟨rfl, rfl, rfl, by simp [h], rfl⟩
  case isFalse h => exact ⟨rfl, rfl, rfl, by simp [h], rfl⟩

/-- An uncancelled tree phase never yields the cancelled outcome. -/
theorem splitTree_none_ne_inl (artifact : Str) (res : SplitRes) :
    splitTree artifact none ≠ Sum.inl res := by
  simp only [splitTree, runOk, Bool.not_true]
  split
  · rw [if_neg (by simp), if_neg (by simp)]
    simp
  · simp

/-- With no cancellation and no tree header, the split run reduces to the
line parser followed by the end-of-input flush; the run is not cancelled and
succeeds exactly when its created-file counter is positive. -/
theorem splitRun_none_eval (F : MergeFormat) (outDir : List Str)
    (artifact : Str) (hns : pyStrip (takeLine artifact) ≠ TREE_START_DELIMITER) :
    (splitRun F outDir artifact none).written =
      (finishSplit F outDir
        (processLines F outDir initSplitState (pySplitlines artifact))).1 ∧
    (splitRun F outDir artifact none).file_count =
      (finishSplit F outDir
        (processLines F outDir initSplitState (pySplitlines artifact))).2 ∧
    (splitRun F outDir artifact none).cancelled = false ∧
    (splitRun F outDir artifact none).success =
      decide (0 < (finishSplit F outDir
        (processLines F outDir initSplitState (pySplitlines artifact))).2) ∧
    (splitRun F outDir artifact none).message =
      (if 0 < (finishSplit F outDir
          (processLines F outDir initSplitState (pySplitlines artifact))).2
        then splitSuccessMsg F outDir
          (finishSplit F outDir
            (processLines F outDir initSplitState (pySplitlines artifact))).2
        else splitNoBlocksMsg F) := by
  have htree : splitTree artifact none =
      Sum.inr (artifact, 0, 0, if 0 < utf8Len artifact then [0, 0] else [0]) := by
    simp only [splitTree]
    rw [if_neg hns]
  have hrun : splitRun F outDir artifact none =
      splitMain F outDir (utf8Len artifact) artifact 0 0
        (if 0 < utf8Len artifact then [0, 0] else [0]) none := by
    unfold splitRun
    rw [htree]
  rw [hrun]
  exact splitMain_none_eval F outDir (utf8Len artifact) artifact 0 0 _

/-- With no cancellation, whatever the artifact (hierarchy-tree header or
not), the split run is the line parser on the post-header body followed by
the end-of-input flush. -/
theorem splitRun_none_eval_body (F : MergeFormat) (outDir : List Str)
    (artifact : Str) :
    (splitRun F outDir artifact none).written =
      (finishSplit F outDir (processLines F outDir initSplitState
        (pySplitlines (splitBody artifact)))).1 ∧
    (splitRun F outDir artifact none).file_count =
      (finishSplit F outDir (processLines F outDir initSplitState
        (pySplitlines (splitBody artifact)))).2 := by
  cases ht : splitTree artifact none with
  | inl res => exact absurd ht (splitTree_none_ne_inl artifact res)
  | inr r =>
    obtain ⟨rest, processed, t0, prog⟩ := r
    have h := splitMain_none_eval F outDir (utf8Len artifact) rest processed
      t0 prog
    have hrun : splitRun F outDir artifact none =
        splitMain F outDir (utf8Len artifact) rest processed t0 prog none := by
      unfold splitRun
      rw [ht]
    have hbody : splitBody artifact = rest := by
      unfold splitBody
      rw [ht]
    rw [hrun, hbody]
    exact ⟨h.1, h.2.1⟩

/-- With no cancellation, whatever the artifact (hierarchy header or not), the
split run's outcome is determined by its created-file counter. -/
theorem splitRun_none_outcome (F : MergeFormat) (outDir : List Str)
    (artifact : Str) :
    (splitRun F outDir artifact none).cancelled = false ∧
    (splitRun F outDir artifact none).success =
      decide (0 < (splitRun F outDir artifact none).file_count) ∧
    ((splitRun F outDir artifact none).file_count = 0 →
      (splitRun F outDir artifact none).message = splitNoBlocksMsg F) := by
  unfold splitRun
  cases htree : splitTree artifact none with
  | inl res => exact absurd htree (splitTree_none_ne_inl artifact res)
  | inr r =>
    obtain ⟨rest, processed, t0, prog⟩ := r
    have h := splitMain_none_eval F outDir (utf8Len artifact) rest processed t0 prog
    refine ⟨h.2.2.1, ?_, ?_⟩
    · rw [h.2.2.2.1, h.2.1]
    · intro hc
      rw [h.2.1] at hc
      rw [h.2.2.2.2, if_neg (by omega)]

-- write-time helpers -------------------------------------------------------

/-- Lexical resolution of a `..`-free segment list is plain concatenation. -/
theorem resolveSegs_no_dotdot (parts : List Str) (h : "..".data ∉ parts) :
    ∀ base, resolveSegs base parts = base ++ parts := by
  induction parts with
  | nil => intro base; simp [resolveSegs]
  | cons s rest ih =>
    intro base
    have hs : s ≠ "..".data := fun hc => h (by simp [hc])
    have hrest : "..".data ∉ rest := fun hc => h (by simp [hc])
    unfold resolveSegs at *
    rw [List.foldl_cons, if_neg hs, ih hrest]
    simp

theorem head?_append_left (a b : Str) (ha : a ≠ []) :
    (a ++ b).head? = a.head? := by
  cases a with
  | nil => exact absurd rfl ha
  | cons x xs => rfl

theorem head_dropWhile_isFalse (p : Char → Bool) (l : Str) (c : Char)
    (h : (l.dropWhile p).head? = some c) : p c = false := by
  have := List.head?_dropWhile_not p l
  rw [h] at this
  simpa using this

/-- The first character of a both-ends-stripped string never satisfies the
stripping predicate. -/
theorem strip_head_not (p : Char → Bool) (l : Str) (c : Char)
    (hc : ((l.dropWhile p).reverse.dropWhile p).reverse.head? = some c) :
    p c = false := by
  obtain ⟨pre, hpre⟩ :=
    (List.dropWhile_suffix p : (l.dropWhile p).reverse.dropWhile p <:+
      (l.dropWhile p).reverse)
  have hu : l.dropWhile p =
      ((l.dropWhile p).reverse.dropWhile p).reverse ++ pre.reverse := by
    calc l.dropWhile p
        = (l.dropWhile p).reverse.reverse := (List.reverse_reverse _).symm
      _ = (pre ++ (l.dropWhile p).reverse.dropWhile p).reverse := by rw [hpre]
      _ = ((l.dropWhile p).reverse.dropWhile p).reverse ++ pre.reverse :=
          List.reverse_append _ _
  have hne : ((l.dropWhile p).reverse.dropWhile p).reverse ≠ [] := by
    intro h0
    rw [h0] at hc
    simp at hc
  have hhead : (l.dropWhile p).head? = some c := by
    rw [hu, head?_append_left _ _ hne]
    exact hc
  exact head_dropWhile_isFalse p l c hhead

theorem splitOnChar_ne_nil (sep : Char) (s : Str) : splitOnChar sep s ≠ [] := by
  cases s with
  | nil => simp [splitOnChar]
  | cons c rest =>
    rw [show splitOnChar sep (c :: rest) =
      (match splitOnChar sep rest with
       | [] => [[c]]
       | l :: ls => if c = sep then [] :: l :: ls else (c :: l) :: ls)
      from rfl]
    cases h : splitOnChar sep rest with
    | nil => simp
    | cons l ls =>
      dsimp only
      split
      · simp
      · simp

/-- A cleaned non-empty path has at least one `PurePosixPath` part: its first
character is not `.`, `/` or a space, so the first slash-segment is non-empty
and not the single dot. -/
theorem pathParts_clean_ne_nil (rel : Str) (hcl : cleanPath rel ≠ []) :
    pathParts (cleanPath rel) ≠ [] := by
  obtain ⟨c, rest, hcr⟩ := List.exists_cons_of_ne_nil hcl
  have hc : (cleanPath rel).head? = some c := by rw [hcr]; rfl
  have hnd : isDotSlashSpace c = false := by
    simp only [cleanPath] at hc
    exact strip_head_not isDotSlashSpace
      (rel.map (fun ch => if ch = '\\' then '/' else ch)) c hc
  have hcslash : ¬c = '/' := by
    intro h0
    rw [h0] at hnd
    simp [isDotSlashSpace] at hnd
  have hcdot : ¬c = '.' := by
    intro h0
    rw [h0] at hnd
    simp [isDotSlashSpace] at hnd
  rw [hcr]
  cases hso : splitOnChar '/' rest with
  | nil => exact absurd hso (splitOnChar_ne_nil '/' rest)
  | cons l ls =>
    have hsp : splitOnChar '/' (c :: rest) = (c :: l) :: ls := by
      rw [show splitOnChar '/' (c :: rest) =
        (match splitOnChar '/' rest with
         | [] => [[c]]
         | l :: ls => if c = '/' then [] :: l :: ls else (c :: l) :: ls)
        from rfl]
      rw [hso]
      dsimp only
      rw [if_neg hcslash]
    rw [pathParts, hsp, List.filter_cons]
    rw [if_pos ((Bool.and_eq_true _ _).mpr ⟨by simp, bne_iff_ne.mpr (by
      intro h0
      have : c = '.' := by
        have := congrArg List.head? h0
        simpa using this
      exact hcdot this)⟩)]
    simp

/-- A non-empty relative path that cleans to a non-empty `..`-free path is
written at the output directory extended by its cleaned segments. -/
theorem write_file_clean (outDir : List Str) (rel c : Str) (hne : rel ≠ [])
    (hcl : cleanPath rel ≠ []) (hdd : "..".data ∉ pathParts (cleanPath rel)) :
    write_file outDir rel c = some (outDir ++ pathParts (cleanPath rel), c) := by
  unfold write_file
  rw [if_neg (by simpa using hne)]
  dsimp only
  rw [if_neg (by simpa using hcl)]
  rw [resolveSegs_no_dotdot _ hdd outDir]
  rw [if_pos ((Bool.and_eq_true _ _).mpr
    ⟨List.isPrefixOf_iff_prefix.mpr (List.prefix_append outDir _),
     bne_iff_ne.mpr (fun heq => pathParts_clean_ne_nil rel hcl
       (List.append_cancel_left
         (heq.trans (List.append_nil outDir).symm)))⟩)]

-- stepLine branch lemmas ---------------------------------------------------

theorem stepLine_outside_none (F : MergeFormat) (outDir : List Str)
    (st : SplitState) (line : Str) (h1 : st.in_file_block = false)
    (h2 : F.startCapture (pyStrip line) = none) :
    stepLine F outDir st line = st := by
  unfold stepLine
  rw [h1]
  simp only [Bool.not_false, if_true, h2]

theorem stepLine_outside_abs (F : MergeFormat) (outDir : List Str)
    (st : SplitState) (line cap : Str) (h1 : st.in_file_block = false)
    (h2 : F.startCapture (pyStrip line) = some cap)
    (h3 : (pyStrip cap).head? = some '/') :
    stepLine F outDir st line = st := by
  unfold stepLine
  rw [h1]
  simp only [Bool.not_false, if_true, h2]
  have hne : (pyStrip cap).isEmpty = false := by
    cases hp : pyStrip cap with
    | nil => rw [hp] at h3; simp at h3
    | cons a b => rfl
  rw [hne]
  simp only [Bool.false_eq_true, if_false]
  rw [if_pos h3]

theorem stepLine_outside_empty (F : MergeFormat) (outDir : List Str)
    (st : SplitState) (line cap : Str) (h1 : st.in_file_block = false)
    (h2 : F.startCapture (pyStrip line) = some cap)
    (h3 : pyStrip cap = []) :
    stepLine F outDir st line = st := by
  unfold stepLine
  rw [h1]
  simp only [Bool.not_false, if_true, h2, h3]
  rfl

theorem stepLine_outside_enter (F : MergeFormat) (outDir : List Str)
    (st : SplitState) (line cap : Str) (h1 : st.in_file_block = false)
    (h2 : F.startCapture (pyStrip line) = some cap)
    (h3 : pyStrip cap ≠ []) (h4 : (pyStrip cap).head? ≠ some '/') :
    stepLine F outDir st line =
      { st with current_file_path_relative := pyStrip cap
                current_file_content_lines := []
                in_file_block := true
                just_started_block := F.skip_line_after_start } := by
  unfold stepLine
  rw [h1]
  simp only [Bool.not_false, if_true, h2]
  rw [if_neg (by simpa using h3), if_neg h4]

theorem stepLine_skip (F : MergeFormat) (outDir : List Str)
    (st : SplitState) (line : Str) (h1 : st.in_file_block = true)
    (h2 : st.just_started_block = true) :
    stepLine F outDir st line = { st with just_started_block := false } := by
  unfold stepLine
  rw [h1]
  simp only [Bool.not_true, Bool.false_eq_true, if_false, h2, if_true]

theorem stepLine_acc (F : MergeFormat) (outDir : List Str)
    (st : SplitState) (line : Str) (h1 : st.in_file_block = true)
    (h2 : st.just_started_block = false)
    (h3 : pyStrip line ≠ F.get_end_delimiter st.current_file_path_relative) :
    stepLine F outDir st line =
      { st with current_file_content_lines :=
          st.current_file_content_lines ++ [line] } := by
  unfold stepLine
  rw [h1]
  simp only [Bool.not_true, Bool.false_eq_true, if_false, h2, if_neg h3]

theorem stepLine_end (F : MergeFormat) (outDir : List Str)
    (st : SplitState) (line : Str) (entry : List Str × Str)
    (h1 : st.in_file_block = true) (h2 : st.just_started_block = false)
    (h3 : pyStrip line = F.get_end_delimiter st.current_file_path_relative)
    (h4 : write_file outDir st.current_file_path_relative
      st.current_file_content_lines.flatten = some entry) :
    stepLine F outDir st line =
      { st with current_file_path_relative := []
                current_file_content_lines := []
                in_file_block := false
                just_started_block := false
                file_count := st.file_count + 1
                written := st.written ++ [entry]
                created_file_paths :=
                  st.created_file_paths ++ [st.current_file_path_relative] } := by
  unfold stepLine
  rw [h1]
  simp only [Bool.not_true, Bool.false_eq_true, if_false, h2, if_pos h3, h4]

-- ==========================================================================
-- Claim theorems
-- ==========================================================================

/-- C9: if the artifact is opened and decoded successfully, cancellation is
never requested, and the parser writes zero files (no completed block and no
unterminated block produced a successful write), the split terminates with
the failure outcome — `finished` with `success=false` and the message that
no valid file blocks matching the format were found — never the success or
cancelled outcome. -/
theorem C9_zero_blocks_failure (F : MergeFormat) (outDir : List Str)
    (artifact : Str) (h : (splitRun F outDir artifact none).file_count = 0) :
    (splitRun F outDir artifact none).success = false ∧
    (splitRun F outDir artifact none).message = splitNoBlocksMsg F ∧
    (splitRun F outDir artifact none).cancelled = false := by
  obtain ⟨hc, hs, hm⟩ := splitRun_none_outcome F outDir artifact
  refine ⟨?_, hm h, hc⟩
  rw [hs, h]
  rfl

/-- Witness for C9 at a concrete artifact with no recognizable block. -/
theorem C9_zero_blocks_failure_witness :
    (splitRun fmtDefault ["out".data] "garbage\n".data none).file_count = 0 ∧
    ((splitRun fmtDefault ["out".data] "garbage\n".data none).success = false ∧
     (splitRun fmtDefault ["out".data] "garbage\n".data none).message =
       splitNoBlocksMsg fmtDefault ∧
     (splitRun fmtDefault ["out".data] "garbage\n".data none).cancelled = false) := by
  have h0 : (splitRun fmtDefault ["out".data] "garbage\n".data none).file_count = 0 := by
    decide
  exact ⟨h0, C9_zero_blocks_failure fmtDefault ["out".data] "garbage\n".data h0⟩

/-- C2: the split never creates or writes a file outside the resolved output
directory: (1) every file any split run leaves on disk is at or below the
resolved output directory; (2) a block whose captured (stripped) relative
path is absolute is rejected before entering the block, the parser state
being unchanged; (3) whenever the cleaned relative path joined to the output
directory resolves to a location that is neither the resolved output
directory itself nor one of its descendants, `_write_file` returns false
without writing anything; (4) the parser continues processing subsequent
valid blocks after such a rejection (concrete escaping-then-valid artifact). -/
theorem C2_traversal_rejection :
    (∀ (F : MergeFormat) (outDir : List Str) (artifact : Str)
        (cancelAt : Option Nat),
      ∀ e ∈ (splitRun F outDir artifact cancelAt).written, outDir <+: e.1) ∧
    (∀ (F : MergeFormat) (outDir : List Str) (st : SplitState) (line cap : Str),
      st.in_file_block = false → F.startCapture (pyStrip line) = some cap →
      (pyStrip cap).head? = some '/' → stepLine F outDir st line = st) ∧
    (∀ (outDir : List Str) (rel c : Str),
      ¬ outDir <+: resolveSegs outDir (pathParts (cleanPath rel)) →
      write_file outDir rel c = none) ∧
    (splitRun fmtDefault ["top".data, "out".data] escapeArtifact none).written =
      [(["top".data, "out".data, "ok.txt".data], "fine\n".data)] := by
  refine ⟨ splitRun_written_prefix, ?_, ?_, ?_⟩
  · intro F outDir st line cap h1 h2 h3
    exact stepLine_outside_abs F outDir st line cap h1 h2 h3
  · intro outDir rel c h
    exact write_file_none_of_escape h
  · decide

/-- Witness for C2's conditional parts at concrete inputs: an absolute
captured path leaves the state unchanged, and an escaping cleaned path is
not written. -/
theorem C2_traversal_rejection_witness :
    fmtDefault.startCapture
        (pyStrip "--- START FILE: /etc/passwd ---\n".data) =
      some "/etc/passwd".data ∧
    (pyStrip "/etc/passwd".data).head? = some '/' ∧
    stepLine fmtDefault ["out".data] initSplitState
        "--- START FILE: /etc/passwd ---\n".data = initSplitState ∧
    ¬ ["out".data] <+:
        resolveSegs ["out".data] (pathParts (cleanPath "a/../../x".data)) ∧
    write_file ["out".data] "a/../../x".data "boo".data = none := by
  have h2 : fmtDefault.startCapture
      (pyStrip "--- START FILE: /etc/passwd ---\n".data) =
      some "/etc/passwd".data := by decide
  have h3 : (pyStrip ("/etc/passwd".data : Str)).head? = some '/' := by decide
  have hesc : ¬ ["out".data] <+:
      resolveSegs ["out".data] (pathParts (cleanPath "a/../../x".data)) := by decide
  refine ⟨h2, h3, ?_, hesc, ?_⟩
  · exact C2_traversal_rejection.2.1 fmtDefault ["out".data] initSplitState
      "--- START FILE: /etc/passwd ---\n".data "/etc/passwd".data rfl h2
      (by rw [show pyStrip ("/etc/passwd".data : Str) = "/etc/passwd".data from by decide]
          exact h3)
  · exact C2_traversal_rejection.2.2.1 ["out".data] "a/../../x".data "boo".data hesc

/-- C10: `_write_file` refuses an empty captured path and any path whose
cleaning (backslashes to `/`, then stripping leading/trailing `.`, `/`, ` `)
is empty — `..`, `.`, `/` and dot/slash/space-only strings all clean to
empty — and, because the file is created at the cleaned path, the written
name can differ from the captured one when the captured path has leading or
trailing dots, slashes or spaces. -/
theorem C10_write_path_cleaning :
    (∀ (outDir : List Str) (rel c : Str), rel = [] ∨ cleanPath rel = [] →
      write_file outDir rel c = none) ∧
    cleanPath "..".data = [] ∧ cleanPath ".".data = [] ∧
    cleanPath "/".data = [] ∧ cleanPath " ./ ".data = [] ∧
    (∀ (outDir : List Str) (c : Str),
      write_file outDir "./a.txt ".data c = some (outDir ++ ["a.txt".data], c)) ∧
    cleanPath "./a.txt ".data ≠ "./a.txt ".data := by
  refine ⟨?_, by decide, by decide, by decide, by decide, ?_, by decide⟩
  · intro outDir rel c h
    unfold write_file
    rcases h with h | h
    · rw [if_pos (by simpa using h)]
    · split
      · rfl
      · dsimp only
        rw [if_pos (by simpa using h)]
  · intro outDir c
    rw [write_file_clean outDir "./a.txt ".data c (by decide) (by decide) (by decide)]
    rfl

/-- Witness for C10's conditional part at concrete inputs. -/
theorem C10_write_path_cleaning_witness :
    (("" : String).data = [] ∨ cleanPath "".data = []) ∧
    write_file ["out".data] "".data "x".data = none ∧
    cleanPath " ./ ".data = [] ∧
    write_file ["out".data] " ./ ".data "x".data = none := by
  refine ⟨Or.inl rfl, ?_, by decide, ?_⟩
  · exact C10_write_path_cleaning.1 ["out".data] "".data "x".data (Or.inl rfl)
  · exact C10_write_path_cleaning.1 ["out".data] " ./ ".data "x".data
      (Or.inr (by decide))

/-- C4 (counterexample): the artifact `"--- START FILE: ... ---\nhello\n"`
has a recognized, unterminated last block (captured path `...`, the parser
is inside the block at end of input), cancellation is never requested, yet
the split writes no file and counts nothing: the captured path cleans to the
empty string, so `_write_file` rejects the flush, contradicting the claim
that one extracted file is always produced. -/
theorem C4_unterminated_counterexample :
    (processLines fmtDefault ["out".data] initSplitState
        (pySplitlines dotsArtifact)).in_file_block = true ∧
    (processLines fmtDefault ["out".data] initSplitState
        (pySplitlines dotsArtifact)).current_file_path_relative = "...".data ∧
    (processLines fmtDefault ["out".data] initSplitState
        (pySplitlines dotsArtifact)).current_file_content_lines =
      ["hello\n".data] ∧
    (splitRun fmtDefault ["out".data] dotsArtifact none).written = [] ∧
    (splitRun fmtDefault ["out".data] dotsArtifact none).file_count = 0 := by
  decide

/-- C4 (amended): for every artifact — with or without a hierarchy-tree
header — whose parse ends still inside a recognized block with a non-empty
captured path (a start delimiter was seen, no line matched that block's end
delimiter before end of input), and with cancellation never requested, the
split flushes the block at end of input: if `_write_file` accepts the
captured path, exactly one extra file is written, containing all accumulated
trailing content, and the created-files counter grows by one; if
`_write_file` rejects the path (cleaning or containment), the trailing
content is discarded and the counter is unchanged.  `splitBody` is the
artifact minus the optional tree header, the exact text the main loop
reads. -/
theorem C4_unterminated_leniency (F : MergeFormat) (outDir : List Str)
    (artifact : Str)
    (hin : (processLines F outDir initSplitState
      (pySplitlines (splitBody artifact))).in_file_block = true)
    (hp : ¬(processLines F outDir initSplitState
      (pySplitlines (splitBody artifact))).current_file_path_relative.isEmpty) :
    (∀ entry, write_file outDir
        (processLines F outDir initSplitState
          (pySplitlines (splitBody artifact))).current_file_path_relative
        (processLines F outDir initSplitState
          (pySplitlines (splitBody artifact))).current_file_content_lines.flatten
        = some entry →
      (splitRun F outDir artifact none).written =
        (processLines F outDir initSplitState
          (pySplitlines (splitBody artifact))).written ++ [entry] ∧
      (splitRun F outDir artifact none).file_count =
        (processLines F outDir initSplitState
          (pySplitlines (splitBody artifact))).file_count + 1) ∧
    (write_file outDir
        (processLines F outDir initSplitState
          (pySplitlines (splitBody artifact))).current_file_path_relative
        (processLines F outDir initSplitState
          (pySplitlines (splitBody artifact))).current_file_content_lines.flatten
        = none →
      (splitRun F outDir artifact none).written =
        (processLines F outDir initSplitState
          (pySplitlines (splitBody artifact))).written ∧
      (splitRun F outDir artifact none).file_count =
        (processLines F outDir initSplitState
          (pySplitlines (splitBody artifact))).file_count) := by
  obtain ⟨hw, hc⟩ := splitRun_none_eval_body F outDir artifact
  constructor
  · intro entry hwf
    rw [hw, hc]
    unfold finishSplit
    rw [if_pos ⟨hin, hp⟩, hwf]
    exact ⟨rfl, rfl⟩
  · intro hwf
    rw [hw, hc]
    unfold finishSplit
    rw [if_pos ⟨hin, hp⟩, hwf]
    exact ⟨rfl, rfl⟩

/-- Witness for C4 (amended) at a concrete unterminated artifact whose
captured path is accepted: the block is flushed and counted. -/
theorem C4_unterminated_leniency_witness :
    (processLines fmtDefault ["out".data] initSplitState
      (pySplitlines (splitBody
        "--- START FILE: x.txt ---\nhello\n".data))).in_file_block = true ∧
    (splitRun fmtDefault ["out".data]
        "--- START FILE: x.txt ---\nhello\n".data none).written =
      [(["out".data, "x.txt".data], "hello\n".data)] ∧
    (splitRun fmtDefault ["out".data]
        "--- START FILE: x.txt ---\nhello\n".data none).file_count = 1 := by
  have hin : (processLines fmtDefault ["out".data] initSplitState
      (pySplitlines (splitBody
        "--- START FILE: x.txt ---\nhello\n".data))).in_file_block = true := by
    decide
  have hp : ¬(processLines fmtDefault ["out".data] initSplitState
      (pySplitlines (splitBody
        "--- START FILE: x.txt ---\nhello\n".data))).current_file_path_relative.isEmpty := by
    decide
  have hwf : write_file ["out".data]
      (processLines fmtDefault ["out".data] initSplitState
        (pySplitlines (splitBody
          "--- START FILE: x.txt ---\nhello\n".data))).current_file_path_relative
      (processLines fmtDefault ["out".data] initSplitState
        (pySplitlines (splitBody
          "--- START FILE: x.txt ---\nhello\n".data))).current_file_content_lines.flatten =
      some (["out".data, "x.txt".data], "hello\n".data) := by decide
  have h := (C4_unterminated_leniency fmtDefault ["out".data]
    "--- START FILE: x.txt ---\nhello\n".data hin hp).1
    (["out".data, "x.txt".data], "hello\n".data) hwf
  refine ⟨hin, ?_, ?_⟩
  · rw [h.1]
    decide
  · rw [h.2]
    decide

/-- C3 (counterexample): merging `a.txt` (content `"hello"`, no trailing
newline) and `sub/b.txt` (content `"world\n"`) with the Default format and
`includeTree=false` does NOT produce the artifact displayed in the spec:
between the blocks the writer emits the end delimiter's newline followed by
the `"\n\n"` file separator, i.e. two empty lines, not one. -/
theorem C3_concrete_counterexample :
    mergeRun fmtDefault c3Files ≠ c3SpecArtifact ∧
    mergeRun fmtDefault c3Files = c3CodeArtifact := by
  constructor
  · decide
  · decide

/-- C3 (amended): the merge produces the artifact with two empty lines
between the blocks, and splitting that artifact into an empty output
directory with the Default format produces `a.txt` containing `"hello\n"`
and `sub/b.txt` containing `"world\n"`. -/
theorem C3_concrete_scenario :
    mergeRun fmtDefault c3Files = c3CodeArtifact ∧
    (splitRun fmtDefault ["out".data] c3CodeArtifact none).written =
      [(["out".data, "a.txt".data], "hello\n".data),
       (["out".data, "sub".data, "b.txt".data], "world\n".data)] ∧
    (splitRun fmtDefault ["out".data] c3CodeArtifact none).file_count = 2 ∧
    (splitRun fmtDefault ["out".data] c3CodeArtifact none).success = true := by
  refine ⟨by decide, by decide, by decide, by decide⟩

-- cancellation-outcome lemmas ----------------------------------------------

theorem splitTree_inl_eq {artifact : Str} {cancelAt : Option Nat}
    {res : SplitRes} (heq : splitTree artifact cancelAt = Sum.inl res) :
    ∃ prog, res = splitCancelledRes prog := by
  simp only [splitTree] at heq
  split at heq
  · split at heq
    · exact ⟨_, (Sum.inl.inj heq).symm⟩
    · split at heq
      · exact ⟨_, (Sum.inl.inj heq).symm⟩
      · cases heq
  · cases heq

theorem splitMain_not_both (F : MergeFormat) (outDir : List Str) (total : Nat)
    (rest : Str) (processed t0 : Nat) (prog : List Nat) (cancelAt : Option Nat) :
    (splitMain F outDir total rest processed t0 prog cancelAt).cancelled = false ∨
    (splitMain F outDir total rest processed t0 prog cancelAt).success = false := by
  simp only [splitMain]
  split
  · right; rfl
  · split
    · right; rfl
    · split
      · left; rfl
      · left; rfl

/-- A cancelled split run never reports the success outcome. -/
theorem splitRun_not_both (F : MergeFormat) (outDir : List Str)
    (artifact : Str) (cancelAt : Option Nat) :
    (splitRun F outDir artifact cancelAt).cancelled = false ∨
    (splitRun F outDir artifact cancelAt).success = false := by
  unfold splitRun
  cases heq : splitTree artifact cancelAt with
  | inl res =>
    obtain ⟨prog, hp⟩ := splitTree_inl_eq heq
    dsimp only
    rw [hp]
    right; rfl
  | inr r =>
    obtain ⟨rest, processed, t0, prog⟩ := r
    dsimp only
    exact splitMain_not_both F outDir (utf8Len artifact) rest processed t0
      prog cancelAt

/-- A cancelled merge run never reports success and leaves no output file. -/
theorem mergerRun_not_both (F : MergeFormat) (files : List (Str × Str × Nat))
    (cancelAt : Option Nat) :
    (mergerRun F files cancelAt).cancelled = false ∨
    ((mergerRun F files cancelAt).success = false ∧
     (mergerRun F files cancelAt).outputFile = none) := by
  simp only [mergerRun]
  split
  · left; rfl
  · split
    · split
      · right; exact ⟨rfl, rfl⟩
      · left; rfl
    · split
      · right; exact ⟨rfl, rfl⟩
      · left; rfl

/-- C7 (claim right, code wrong): whenever cancellation is observed the
operation ends with `finished(success=false)` — never the success outcome —
and a cancelled merge deletes its partial output file.  But a cancelled
split does NOT always delete every extracted file: at the failing artifact
(captured path `a.txt.`, which `_write_file` cleans to `a.txt`), with
cancellation observed at the post-loop check, the extracted `a.txt` is
still on disk after cleanup, because the cleanup unlinks
`output_dir.joinpath(raw captured path)` (here `a.txt.`, never created)
instead of the cleaned path the write used.  With a captured path needing
no cleaning, cleanup does remove the extracted file. -/
theorem C7_cancellation_cleanup :
    (∀ (F : MergeFormat) (files : List (Str × Str × Nat)) (cancelAt : Option Nat),
      (mergerRun F files cancelAt).cancelled = true →
      (mergerRun F files cancelAt).success = false ∧
      (mergerRun F files cancelAt).outputFile = none) ∧
    (∀ (F : MergeFormat) (outDir : List Str) (artifact : Str)
        (cancelAt : Option Nat),
      (splitRun F outDir artifact cancelAt).cancelled = true →
      (splitRun F outDir artifact cancelAt).success = false) ∧
    (splitRun fmtDefault ["out".data] trailingDotArtifact (some 4)).cancelled
      = true ∧
    (splitRun fmtDefault ["out".data] trailingDotArtifact (some 4)).written =
      [(["out".data, "a.txt".data], "hello\n".data)] ∧
    (splitRun fmtDefault ["out".data]
      "--- START FILE: a.txt ---\nhello\n--- END FILE: a.txt ---\n".data
      (some 4)).written = [] := by
  refine ⟨?_, ?_, by decide, by decide, by decide⟩
  · intro F files cancelAt h
    rcases mergerRun_not_both F files cancelAt with hc | hs
    · rw [h] at hc; cases hc
    · exact hs
  · intro F outDir artifact cancelAt h
    rcases splitRun_not_both F outDir artifact cancelAt with hc | hs
    · rw [h] at hc; cases hc
    · exact hs

/-- Witness for C7's conditional parts at concrete cancelled runs. -/
theorem C7_cancellation_cleanup_witness :
    (mergerRun fmtDefault [("a.txt".data, "hi".data, 2)] (some 0)).cancelled
      = true ∧
    (mergerRun fmtDefault [("a.txt".data, "hi".data, 2)] (some 0)).success
      = false ∧
    (mergerRun fmtDefault [("a.txt".data, "hi".data, 2)] (some 0)).outputFile
      = none ∧
    (splitRun fmtDefault ["out".data] trailingDotArtifact (some 4)).success
      = false := by
  have hm : (mergerRun fmtDefault [("a.txt".data, "hi".data, 2)]
      (some 0)).cancelled = true := by decide
  have hs : (splitRun fmtDefault ["out".data] trailingDotArtifact
      (some 4)).cancelled = true := by decide
  obtain ⟨h1, h2⟩ := C7_cancellation_cleanup.1 fmtDefault
    [("a.txt".data, "hi".data, 2)] (some 0) hm
  exact ⟨hm, h1, h2, C7_cancellation_cleanup.2.1 fmtDefault ["out".data]
    trailingDotArtifact (some 4) hs⟩

-- discovery lemmas ----------------------------------------------------------

/-- C6: for every filesystem, selection list and entry order, the discovered
file list handed to the writing phase is sorted ascending (case-sensitive
code-point lexicographic) by the POSIX-slash form of the relative paths. -/
theorem C6_discover_sorted (fs : FileSystem) (items : List SelItem) :
    List.Sorted (fun a b => strLe (posixOf a.rel) (posixOf b.rel) = true)
      (discover fs items) := by
  unfold discover
  haveI : IsTotal DiscFile
      (fun a b => strLe (posixOf a.rel) (posixOf b.rel) = true) := by
    constructor
    intro a b
    have := strLe_total (posixOf a.rel) (posixOf b.rel)
    rcases (Bool.or_eq_true _ _).mp this with h | h
    · exact Or.inl h
    · exact Or.inr h
  haveI : IsTrans DiscFile
      (fun a b => strLe (posixOf a.rel) (posixOf b.rel) = true) := by
    constructor
    intro a b c hab hbc
    exact strLe_trans hab hbc
  exact List.sorted_insertionSort _ _

/-- The inner walk fold of a folder entry (src/workers.py lines 251-302):
appends one record per not-yet-encountered walked file, tracking it in the
`encountered` set. -/
theorem walkFold_spec (item : SelItem) :
    ∀ (ws : List FSFile) (acc : List (List Str) × List DiscFile),
      ∃ new : List DiscFile,
        (ws.foldl (fun acc2 f =>
          if acc2.1.contains f.path then acc2
          else (acc2.1 ++ [f.path],
                acc2.2 ++ [⟨f.path, fileRel item f.path, f.size⟩])) acc) =
          (acc.1 ++ new.map (fun r => r.abs), acc.2 ++ new) ∧
        (∀ r ∈ new,
          (∃ f ∈ ws, f.path = r.abs ∧
            r = ⟨f.path, fileRel item f.path, f.size⟩) ∧ r.abs ∉ acc.1) ∧
        (new.map (fun r => r.abs)).Nodup ∧
        (∀ f ∈ ws, f.path ∈ acc.1 ++ new.map (fun r => r.abs)) := by
  intro ws
  induction ws with
  | nil => intro acc; exact ⟨[], by simp, by simp, by simp, by simp⟩
  | cons w rest ih =>
    intro acc
    rw [List.foldl_cons]
    by_cases hc : acc.1.contains w.path
    · rw [if_pos hc]
      obtain ⟨new, h1, h2, h3, h4⟩ := ih acc
      refine ⟨new, h1, ?_, h3, ?_⟩
      · intro r hr
        obtain ⟨⟨f, hf, he⟩, hna⟩ := h2 r hr
        exact ⟨⟨f, by simp [hf], he⟩, hna⟩
      · intro f hf
        rcases List.mem_cons.mp hf with h | h
        · subst h
          exact List.mem_append.mpr (Or.inl (List.mem_of_elem_eq_true hc))
        · exact h4 f h
    · rw [if_neg hc]
      obtain ⟨new, h1, h2, h3, h4⟩ :=
        ih (acc.1 ++ [w.path], acc.2 ++ [⟨w.path, fileRel item w.path, w.size⟩])
      have hwp : w.path ∉ acc.1 := fun hm =>
        hc (List.elem_iff.mpr hm)
      refine ⟨⟨w.path, fileRel item w.path, w.size⟩ :: new, ?_, ?_, ?_, ?_⟩
      · rw [h1]
        simp
      · intro r hr
        rcases List.mem_cons.mp hr with h | h
        · subst h
          exact ⟨⟨w, by simp, rfl, rfl⟩, hwp⟩
        · obtain ⟨⟨f, hf, he⟩, hna⟩ := h2 r h
          refine ⟨⟨f, by simp [hf], he⟩, ?_⟩
          intro hmem
          exact hna (List.mem_append.mpr (Or.inl hmem))
      · simp only [List.map_cons, List.nodup_cons]
        constructor
        · intro hmem
          obtain ⟨r, hr, habs⟩ := List.mem_map.mp hmem
          obtain ⟨-, hna⟩ := h2 r hr
          exact hna (by rw [habs]; simp)
        · exact h3
      · intro f hf
        rcases List.mem_cons.mp hf with h | h
        · subst h
          simp
        · have := h4 f h
          simp only [List.append_assoc, List.mem_append, List.mem_singleton,
            List.map_cons, List.mem_cons] at this ⊢
          tauto

/-- One discovery step (src/workers.py lines 201-305): appends records only
for paths the entry reaches and that were not yet encountered, each resolved
by this entry's base, and marks every reachable path as encountered. -/
theorem discoverStep_spec (fs : FileSystem) (item : SelItem)
    (acc : List (List Str) × List DiscFile) :
    ∃ new : List DiscFile,
      discoverStep fs acc item =
        (acc.1 ++ new.map (fun r => r.abs), acc.2 ++ new) ∧
      (∀ r ∈ new, reaches fs item r.abs = true ∧ r.rel = fileRel item r.abs ∧
        r.abs ∉ acc.1) ∧
      (new.map (fun r => r.abs)).Nodup ∧
      (∀ p, reaches fs item p = true →
        p ∈ acc.1 ++ new.map (fun r => r.abs)) := by
  cases hty : item.type with
  | file =>
    unfold discoverStep
    rw [hty]
    by_cases hf : isFile fs item.path
    · rw [if_pos hf]
      by_cases hc : acc.1.contains item.path
      · rw [if_pos hc]
        refine ⟨[], by simp, by simp, by simp, ?_⟩
        intro p hp
        unfold reaches at hp
        rw [hty] at hp
        simp only [Bool.and_eq_true, beq_iff_eq] at hp
        rw [← hp.1]
        exact List.mem_append.mpr (Or.inl (List.mem_of_elem_eq_true hc))
      · rw [if_neg hc]
        refine ⟨[⟨item.path, fileRel item item.path, statSize fs item.path⟩],
          by simp, ?_, by simp, ?_⟩
        · intro r hr
          rw [List.mem_singleton] at hr
          subst hr
          refine ⟨?_, rfl, fun hm => hc (List.elem_iff.mpr hm)⟩
          unfold reaches
          rw [hty]
          simp [hf]
        · intro p hp
          unfold reaches at hp
          rw [hty] at hp
          simp only [Bool.and_eq_true, beq_iff_eq] at hp
          rw [← hp.1]
          simp
    · rw [if_neg hf]
      refine ⟨[], by simp, by simp, by simp, ?_⟩
      intro p hp
      unfold reaches at hp
      rw [hty] at hp
      simp only [Bool.and_eq_true, beq_iff_eq] at hp
      rw [hp.1] at hf
      exact absurd hp.2 hf
  | folder =>
    unfold discoverStep
    rw [hty]
    by_cases hd : isDir fs item.path
    · rw [if_pos hd]
      obtain ⟨new, h1, h2, h3, h4⟩ := walkFold_spec item (walkFiles fs item.path) acc
      refine ⟨new, h1, ?_, h3, ?_⟩
      · intro r hr
        obtain ⟨⟨f, hf, hfp, hre⟩, hna⟩ := h2 r hr
        refine ⟨?_, ?_, hna⟩
        · unfold reaches
          rw [hty]
          exact List.any_eq_true.mpr ⟨f, hf, by simp [hfp]⟩
        · rw [hre]
      · intro p hp
        unfold reaches at hp
        rw [hty] at hp
        obtain ⟨f, hf, hfp⟩ := List.any_eq_true.mp hp
        simp only [beq_iff_eq] at hfp
        rw [← hfp]
        exact h4 f hf
    · rw [if_neg hd]
      refine ⟨[], by simp, by simp, by simp, ?_⟩
      intro p hp
      unfold reaches at hp
      rw [hty] at hp
      unfold isDir at hd
      simp only [Bool.not_eq_true, Bool.not_eq_false'] at hd
      rw [List.isEmpty_iff] at hd
      rw [hd] at hp
      simp at hp

/-- Folding discovery over entries only appends records whose paths were not
yet encountered, the encountered set growing in lockstep. -/
theorem discoverFold_spec (fs : FileSystem) :
    ∀ (items : List SelItem) (acc : List (List Str) × List DiscFile),
      ∃ new : List DiscFile,
        items.foldl (discoverStep fs) acc =
          (acc.1 ++ new.map (fun r => r.abs), acc.2 ++ new) ∧
        (∀ r ∈ new, r.abs ∉ acc.1) ∧
        (new.map (fun r => r.abs)).Nodup := by
  intro items
  induction items with
  | nil => intro acc; exact ⟨[], by simp, by simp, by simp⟩
  | cons i rest ih =>
    intro acc
    rw [List.foldl_cons]
    obtain ⟨new1, h1, h2, h3, h4⟩ := discoverStep_spec fs i acc
    obtain ⟨new2, g1, g2, g3⟩ := ih (discoverStep fs acc i)
    have g1' : rest.foldl (discoverStep fs) (discoverStep fs acc i) =
        (acc.1 ++ (new1 ++ new2).map (fun r => r.abs),
         acc.2 ++ (new1 ++ new2)) := by
      rw [g1, h1]
      simp
    have g2' : ∀ r ∈ new2, r.abs ∉ acc.1 ++ new1.map (fun r => r.abs) := by
      intro r hr
      have hg := g2 r hr
      rw [h1] at hg
      exact hg
    refine ⟨new1 ++ new2, g1', ?_, ?_⟩
    · intro r hr
      rcases List.mem_append.mp hr with h | h
      · exact (h2 r h).2.2
      · intro hmem
        exact g2' r h (List.mem_append.mpr (Or.inl hmem))
    · rw [List.map_append, List.nodup_append]
      refine ⟨h3, g3, ?_⟩
      intro a ha hb
      obtain ⟨r, hr, hra⟩ := List.mem_map.mp hb
      apply g2' r hr
      rw [hra]
      exact List.mem_append.mpr (Or.inr ha)

theorem countP_beq_one_of_nodup {p : List Str} :
    ∀ l : List (List Str), l.Nodup → p ∈ l →
      List.countP (fun a => a == p) l = 1 := by
  intro l
  induction l with
  | nil => intro _ h; simp at h
  | cons a rest ih =>
    intro hnd hm
    rw [List.countP_cons]
    rw [List.nodup_cons] at hnd
    rcases List.mem_cons.mp hm with h | h
    · have hz : List.countP (fun x => x == p) rest = 0 := by
        rw [List.countP_eq_zero]
        intro b hb hbeq
        simp only [beq_iff_eq] at hbeq
        apply hnd.1
        rw [← h, ← hbeq]
        exact hb
      have hap : (a == p) = true := by simp [h]
      rw [hz, hap]
      simp
    · have ha : (a == p) = false := by
        simp only [beq_eq_false_iff_ne, ne_eq]
        intro hc
        exact hnd.1 (hc ▸ h)
      rw [ih hnd.2 h, ha]
      simp

/-- If some entry reaches `p` and `p` is not yet encountered, the fold adds
exactly one record for `p`, resolved by the first entry that reaches it. -/
theorem discoverFold_first (fs : FileSystem) (p : List Str) :
    ∀ (items : List SelItem) (it : SelItem),
      items.find? (fun i => reaches fs i p) = some it →
      ∀ (acc : List (List Str) × List DiscFile), p ∉ acc.1 →
      ∃ r0 : DiscFile, r0.abs = p ∧ r0.rel = fileRel it p ∧
        List.countP (fun x => x.abs == p)
          (items.foldl (discoverStep fs) acc).2 =
          List.countP (fun x => x.abs == p) acc.2 + 1 ∧
        (∀ x ∈ (items.foldl (discoverStep fs) acc).2,
          x.abs = p → x ∈ acc.2 ∨ x = r0) := by
  intro items
  induction items with
  | nil => intro it hfind; simp at hfind
  | cons i rest ih =>
    intro it hfind acc hnot
    rw [List.foldl_cons]
    obtain ⟨new1, h1, h2, h3, h4⟩ := discoverStep_spec fs i acc
    by_cases hr : reaches fs i p = true
    · -- the head entry is the first reacher
      rw [List.find?_cons_of_pos rest hr] at hfind
      have hit : i = it := Option.some.inj hfind
      subst hit
      have hpmem : p ∈ new1.map (fun r => r.abs) := by
        rcases List.mem_append.mp (h4 p hr) with h | h
        · exact absurd h hnot
        · exact h
      obtain ⟨r0, hr0mem, hr0abs⟩ := List.mem_map.mp hpmem
      obtain ⟨-, hrel, -⟩ := h2 r0 hr0mem
      obtain ⟨new2, g1, g2, g3⟩ := discoverFold_spec fs rest (discoverStep fs acc i)
      have g1' : rest.foldl (discoverStep fs) (discoverStep fs acc i) =
          ((acc.1 ++ new1.map (fun r => r.abs)) ++ new2.map (fun r => r.abs),
           (acc.2 ++ new1) ++ new2) := by
        rw [g1, h1]
      have g2' : ∀ r ∈ new2, r.abs ∉ acc.1 ++ new1.map (fun r => r.abs) := by
        intro r hrm
        have hg := g2 r hrm
        rw [h1] at hg
        exact hg
      have hc2 : List.countP (fun x => x.abs == p) new2 = 0 := by
        rw [List.countP_eq_zero]
        intro a ha hap
        simp only [beq_iff_eq] at hap
        apply g2' a ha
        rw [hap]
        exact List.mem_append.mpr (Or.inr hpmem)
      have hc1 : List.countP (fun x => x.abs == p) new1 = 1 := by
        have hcount := countP_beq_one_of_nodup (new1.map (fun r => r.abs)) h3 hpmem
        rw [List.countP_map] at hcount
        exact hcount
      refine ⟨r0, hr0abs, by rw [hrel, hr0abs], ?_, ?_⟩
      · rw [g1']
        simp only [List.countP_append, hc1, hc2]
      · intro x hx hxabs
        rw [g1'] at hx
        simp only [List.append_assoc, List.mem_append] at hx
        rcases hx with hx | hx | hx
        · exact Or.inl hx
        · right
          refine List.inj_on_of_nodup_map h3 hx hr0mem ?_
          rw [hxabs, hr0abs]
        · exfalso
          apply g2' x hx
          rw [hxabs]
          exact List.mem_append.mpr (Or.inr hpmem)
    · -- the head entry does not reach p: recurse
      rw [List.find?_cons_of_neg rest hr] at hfind
      have hpnew1 : p ∉ new1.map (fun r => r.abs) := by
        intro hm
        obtain ⟨r, hrm, hra⟩ := List.mem_map.mp hm
        obtain ⟨hreach, -, -⟩ := h2 r hrm
        rw [hra] at hreach
        exact hr hreach
      have hnot2 : p ∉ (discoverStep fs acc i).1 := by
        rw [h1]
        intro hm
        rcases List.mem_append.mp hm with h | h
        · exact hnot h
        · exact hpnew1 h
      obtain ⟨r0, hr0abs, hr0rel, hcount, hmem⟩ :=
        ih it hfind (discoverStep fs acc i) hnot2
      have hstep2 : (discoverStep fs acc i).2 = acc.2 ++ new1 := by rw [h1]
      have hc1 : List.countP (fun x => x.abs == p) new1 = 0 := by
        rw [List.countP_eq_zero]
        intro a ha hap
        simp only [beq_iff_eq] at hap
        apply hpnew1
        rw [← hap]
        exact List.mem_map.mpr ⟨a, ha, rfl⟩
      refine ⟨r0, hr0abs, hr0rel, ?_, ?_⟩
      · rw [hcount, hstep2]
        simp only [List.countP_append, hc1]
      · intro x hx hxabs
        rcases hmem x hx hxabs with h | h
        · rw [hstep2] at h
          rcases List.mem_append.mp h with h5 | h5
          · exact Or.inl h5
          · exfalso
            apply hpnew1
            rw [← hxabs]
            exact List.mem_map.mpr ⟨x, h5, rfl⟩
        · exact Or.inr h

/-- C5: for every (symlink-free) filesystem and selection list in which the
same file — the same resolved absolute path — is reachable through two or
more entries (e.g. selected directly and also found inside a selected
folder), discovery produces exactly one record for that file, with the
relative-path resolution of whichever reaching entry is processed first. -/
theorem C5_deduplication (fs : FileSystem) (items : List SelItem)
    (p : List Str)
    (h2 : 2 ≤ items.countP (fun i => reaches fs i p)) :
    (discover fs items).countP (fun r => r.abs == p) = 1 ∧
    ∃ it, items.find? (fun i => reaches fs i p) = some it ∧
      ∀ r ∈ discover fs items, r.abs = p → r.rel = fileRel it p := by
  have hex : ∃ i ∈ items, reaches fs i p = true := by
    rw [← List.countP_pos]
    omega
  obtain ⟨it, hit⟩ := Option.isSome_iff_exists.mp (List.find?_isSome.mpr hex)
  obtain ⟨r0, hr0abs, hr0rel, hcount, hmem⟩ :=
    discoverFold_first fs p items it hit ([], []) (by simp)
  have hperm : (discover fs items).Perm
      (items.foldl (discoverStep fs) ([], [])).2 := by
    unfold discover
    exact List.perm_insertionSort _ _
  constructor
  · rw [hperm.countP_eq]
    simpa using hcount
  · refine ⟨it, hit, ?_⟩
    intro r hr habs
    have hrmem : r ∈ (items.foldl (discoverStep fs) ([], [])).2 :=
      hperm.mem_iff.mp hr
    rcases hmem r hrmem habs with h | h
    · simp at h
    · rw [h, hr0rel]

/-- Witness for C5 at the concrete doubly-reachable file. -/
theorem C5_deduplication_witness :
    2 ≤ c5Items.countP (fun i => reaches c5Fs i c5P) ∧
    (discover c5Fs c5Items).countP (fun r => r.abs == c5P) = 1 := by
  have h2 : 2 ≤ c5Items.countP (fun i => reaches c5Fs i c5P) := by decide
  exact ⟨h2, (C5_deduplication c5Fs c5Items c5P h2).1⟩

-- progress monotonicity ----------------------------------------------------

theorem min_pct_le_100 (x : Nat) : min x 100 ≤ 100 := min_le_right x 100

theorem min_pct_mono {a b t : Nat} (h : a ≤ b) :
    min (a * 100 / t) 100 ≤ min (b * 100 / t) 100 :=
  min_le_min (Nat.div_le_div_right (Nat.mul_le_mul_right 100 h)) le_rfl

/-- The main split loop keeps the progress log monotone, within bounds, and
its last value below the capped percentage of the byte counter. -/
theorem mainFold_progress (F : MergeFormat) (outDir : List Str) (total : Nat)
    (ls : List Str) :
    ∀ ms : MainState,
      List.Chain' (· ≤ ·) ms.progress → (∀ v ∈ ms.progress, v ≤ 100) →
      (∀ w, ms.progress.getLast? = some w →
        w ≤ min (ms.processed * 100 / total) 100) →
      List.Chain' (· ≤ ·) (ls.foldl (mainStep F outDir total) ms).progress ∧
      (∀ v ∈ (ls.foldl (mainStep F outDir total) ms).progress, v ≤ 100) ∧
      (∀ w, (ls.foldl (mainStep F outDir total) ms).progress.getLast? = some w →
        w ≤ min ((ls.foldl (mainStep F outDir total) ms).processed * 100 / total)
          100) := by
  induction ls with
  | nil => intro ms h1 h2 h3; exact ⟨h1, h2, h3⟩
  | cons l rest ih =>
    intro ms h1 h2 h3
    rw [List.foldl_cons]
    apply ih
    · -- chain after one step
      unfold mainStep
      dsimp only
      split
      · rw [List.chain'_append]
        refine ⟨h1, List.chain'_singleton _, ?_⟩
        intro x hx y hy
        simp only [List.head?_cons, Option.mem_def, Option.some.injEq] at hy
        subst hy
        have hle := h3 x (Option.mem_def.mp hx)
        exact le_trans hle (min_pct_mono (Nat.le_add_right _ _))
      · exact h1
    · unfold mainStep
      dsimp only
      split
      · intro v hv
        rcases List.mem_append.mp hv with h | h
        · exact h2 v h
        · rw [List.mem_singleton] at h
          subst h
          exact min_pct_le_100 _
      · exact h2
    · unfold mainStep
      dsimp only
      split
      · intro w hw
        rw [List.getLast?_append_of_ne_nil _ (by simp)] at hw
        simp only [List.getLast?_singleton, Option.some.injEq] at hw
        subst hw
        exact le_rfl
      · intro w hw
        have hle := h3 w hw
        exact le_trans hle (min_pct_mono (Nat.le_add_right _ _))

/-- Appending the terminal `100` emission(s) to a monotone, bounded progress
log keeps it monotone and bounded. -/
theorem chain_append_100 (l X : List Nat) (hc : List.Chain' (· ≤ ·) l)
    (hb : ∀ v ∈ l, v ≤ 100) (hX : X = [] ∨ X = [100]) :
    List.Chain' (· ≤ ·) (l ++ [100] ++ X) ∧ ∀ v ∈ l ++ [100] ++ X, v ≤ 100 := by
  constructor
  · rw [List.append_assoc, List.chain'_append]
    refine ⟨hc, ?_, ?_⟩
    · rcases hX with h | h <;> subst h <;> simp [List.chain'_cons]
    · intro x hx y hy
      have hy100 : y = 100 := by
        rcases hX with h | h <;> subst h <;>
          exact ((by simpa using hy : (100 : Nat) = y)).symm
      subst hy100
      exact hb x (List.mem_of_mem_getLast? hx)
  · intro v hv
    rcases List.mem_append.mp hv with h | h
    · rcases List.mem_append.mp h with h | h
      · exact hb v h
      · rw [List.mem_singleton] at h; omega
    · rcases hX with hh | hh <;> subst hh <;> simp_all

/-- The progress log of the main split phase is monotone and bounded by 100
whenever the incoming log is. -/
theorem splitMain_progress (F : MergeFormat) (outDir : List Str) (total : Nat)
    (rest : Str) (processed t0 : Nat) (prog : List Nat) (cancelAt : Option Nat)
    (h1 : List.Chain' (· ≤ ·) prog) (h2 : ∀ v ∈ prog, v ≤ 100)
    (h3 : ∀ w, prog.getLast? = some w → w ≤ min (processed * 100 / total) 100) :
    List.Chain' (· ≤ ·)
      (splitMain F outDir total rest processed t0 prog cancelAt).progress ∧
    ∀ v ∈ (splitMain F outDir total rest processed t0 prog cancelAt).progress,
      v ≤ 100 := by
  obtain ⟨g1, g2, g3⟩ := mainFold_progress F outDir total
    ((pySplitlines rest).take
      (linesBudget cancelAt t0 (pySplitlines rest).length))
    { parse := initSplitState, processed := processed, progress := prog } h1 h2 h3
  simp only [splitMain]
  split
  · simp only [splitCancelledRes]
    exact ⟨h1, h2⟩
  · split
    · dsimp only
      exact ⟨g1, g2⟩
    · split
      · dsimp only
        exact chain_append_100 _ _ g1 g2
          (by split
              · exact Or.inr rfl
              · exact Or.inl rfl)
      · dsimp only
        exact chain_append_100 _ _ g1 g2
          (by split
              · exact Or.inr rfl
              · exact Or.inl rfl)

/-- A cancelled outcome of the tree phase carries a monotone, bounded
progress log. -/
theorem splitTree_inl_progress (artifact : Str) (cancelAt : Option Nat)
    (res : SplitRes) (h : splitTree artifact cancelAt = Sum.inl res) :
    List.Chain' (· ≤ ·) res.progress ∧ ∀ v ∈ res.progress, v ≤ 100 := by
  simp only [splitTree] at h
  split at h
  · split at h
    · injection h with h'
      subst h'
      simp only [splitCancelledRes]
      exact ⟨List.chain'_singleton _, by simp⟩
    · split at h
      · injection h with h'
        subst h'
        simp only [splitCancelledRes]
        constructor
        · split
          · simp [List.chain'_cons]
          · exact List.chain'_singleton _
        · intro v hv
          split at hv
          · rw [List.mem_cons, List.mem_singleton] at hv
            rcases hv with h0 | h0
            · omega
            · subst h0
              exact min_pct_le_100 _
          · rw [List.mem_singleton] at hv
            omega
      · exact absurd h (by simp)
  · exact absurd h (by simp)

/-- When the tree phase hands over to the main phase, the progress log so far
is monotone, bounded by 100, and its last value is below the capped
percentage of the bytes consumed. -/
theorem splitTree_inr_progress (artifact : Str) (cancelAt : Option Nat)
    (rest : Str) (processed t0 : Nat) (prog : List Nat)
    (h : splitTree artifact cancelAt = Sum.inr (rest, processed, t0, prog)) :
    List.Chain' (· ≤ ·) prog ∧ (∀ v ∈ prog, v ≤ 100) ∧
    ∀ w, prog.getLast? = some w →
      w ≤ min (processed * 100 / utf8Len artifact) 100 := by
  simp only [splitTree] at h
  split at h
  · split at h
    · exact absurd h (by simp)
    · split at h
      · exact absurd h (by simp)
      · simp only [Sum.inr.injEq, Prod.mk.injEq] at h
        obtain ⟨-, hproc, -, hprog⟩ := h
        subst hproc
        subst hprog
        refine ⟨?_, ?_, ?_⟩
        · split
          · split
            · simp [List.chain'_cons]
            · simp [List.chain'_cons]
          · split
            case isTrue hn hc => exact absurd hc.2 hn
            case isFalse => exact List.chain'_singleton _
        · intro v hv
          split at hv
          · split at hv
            · simp only [List.cons_append, List.nil_append,
                List.mem_cons, List.not_mem_nil, or_false] at hv
              rcases hv with h0 | h0 | h0
              · omega
              · subst h0; exact min_pct_le_100 _
              · subst h0; exact min_pct_le_100 _
            · simp only [List.cons_append, List.nil_append,
                List.mem_cons, List.not_mem_nil, or_false] at hv
              rcases hv with h0 | h0
              · omega
              · subst h0; exact min_pct_le_100 _
          · split at hv
            case isTrue hn hc => exact absurd hc.2 hn
            case isFalse =>
              rw [List.mem_singleton] at hv
              omega
        · intro w hw
          split at hw
          · split at hw
            · simp only [List.cons_append, List.nil_append,
                List.getLast?_cons_cons, List.getLast?_singleton,
                Option.some.injEq] at hw
              subst hw
              exact le_rfl
            · simp only [List.cons_append, List.nil_append,
                List.getLast?_cons_cons, List.getLast?_singleton,
                Option.some.injEq] at hw
              subst hw
              exact le_rfl
          · split at hw
            case isTrue hn hc => exact absurd hc.2 hn
            case isFalse =>
              rw [List.getLast?_singleton, Option.some.injEq] at hw
              subst hw
              exact Nat.zero_le _
  · simp only [Sum.inr.injEq, Prod.mk.injEq] at h
    obtain ⟨-, hproc, -, hprog⟩ := h
    subst hproc
    subst hprog
    refine ⟨?_, ?_, ?_⟩
    · split
      · simp [List.chain'_cons]
      · exact List.chain'_singleton _
    · intro v hv
      split at hv
      · rw [List.mem_cons, List.mem_singleton] at hv
        omega
      · rw [List.mem_singleton] at hv
        omega
    · intro w hw
      split at hw
      · rw [List.getLast?_cons_cons, List.getLast?_singleton,
          Option.some.injEq] at hw
        subst hw
        exact Nat.zero_le _
      · rw [List.getLast?_singleton, Option.some.injEq] at hw
        subst hw
        exact Nat.zero_le _

/-- The full split operation only ever emits progress values between 0 and
100, in non-decreasing order. -/
theorem splitRun_progress (F : MergeFormat) (outDir : List Str) (artifact : Str)
    (cancelAt : Option Nat) :
    List.Chain' (· ≤ ·) (splitRun F outDir artifact cancelAt).progress ∧
    ∀ v ∈ (splitRun F outDir artifact cancelAt).progress, v ≤ 100 := by
  cases hT : splitTree artifact cancelAt with
  | inl res =>
    rw [splitRun, hT]
    exact splitTree_inl_progress artifact cancelAt res hT
  | inr q =>
    obtain ⟨rest, processed, t0, prog⟩ := q
    rw [splitRun, hT]
    obtain ⟨p1, p2, p3⟩ :=
      splitTree_inr_progress artifact cancelAt rest processed t0 prog hT
    exact splitMain_progress F outDir (utf8Len artifact) rest processed t0
      prog cancelAt p1 p2 p3

/-- The merge write loop keeps the progress log monotone, within bounds, and
its last value below the capped percentage for the current accumulator. -/
theorem mergeFold_progress (F : MergeFormat) (n total : Nat)
    (fs : List (Str × Str × Nat)) :
    ∀ acc : Str × Nat × Nat × List Nat,
      List.Chain' (· ≤ ·) acc.2.2.2 → (∀ v ∈ acc.2.2.2, v ≤ 100) →
      (∀ w, acc.2.2.2.getLast? = some w →
        w ≤ min (if 0 < total then acc.2.1 * 100 / total
                 else (acc.2.2.1 + 1) * 100 / n) 100) →
      List.Chain' (· ≤ ·) (fs.foldl (mergeStep F n total) acc).2.2.2 ∧
      (∀ v ∈ (fs.foldl (mergeStep F n total) acc).2.2.2, v ≤ 100) ∧
      (∀ w, (fs.foldl (mergeStep F n total) acc).2.2.2.getLast? = some w →
        w ≤ min (if 0 < total then (fs.foldl (mergeStep F n total) acc).2.1 * 100 / total
                 else ((fs.foldl (mergeStep F n total) acc).2.2.1 + 1) * 100 / n)
          100) := by
  induction fs with
  | nil => intro acc h1 h2 h3; exact ⟨h1, h2, h3⟩
  | cons f rest ih =>
    intro acc h1 h2 h3
    rw [List.foldl_cons]
    apply ih
    · simp only [mergeStep]
      rw [List.chain'_append]
      refine ⟨h1, List.chain'_singleton _, ?_⟩
      intro x hx y hy
      simp only [List.head?_cons, Option.mem_def, Option.some.injEq] at hy
      subst hy
      have hle := h3 x (Option.mem_def.mp hx)
      refine le_trans hle (min_le_min ?_ le_rfl)
      split
      · exact Nat.div_le_div_right (Nat.mul_le_mul_right 100 (Nat.le_add_right _ _))
      · exact le_rfl
    · simp only [mergeStep]
      intro v hv
      rcases List.mem_append.mp hv with h | h
      · exact h2 v h
      · rw [List.mem_singleton] at h
        subst h
        exact min_pct_le_100 _
    · simp only [mergeStep]
      intro w hw
      rw [List.getLast?_append_of_ne_nil _ (by simp)] at hw
      simp only [List.getLast?_singleton, Option.some.injEq] at hw
      subst hw
      refine min_le_min ?_ le_rfl
      split
      · exact le_rfl
      · exact Nat.div_le_div_right (Nat.mul_le_mul_right 100 (Nat.le_add_right _ _))

/-- The full merge operation only ever emits progress values between 0 and
100, in non-decreasing order. -/
theorem mergerRun_progress (F : MergeFormat) (files : List (Str × Str × Nat))
    (cancelAt : Option Nat) :
    List.Chain' (· ≤ ·) (mergerRun F files cancelAt).progress ∧
    ∀ v ∈ (mergerRun F files cancelAt).progress, v ≤ 100 := by
  obtain ⟨g1, g2, g3⟩ := mergeFold_progress F
    (files.insertionSort (fun a b => strLe a.1 b.1 = true)).length
    (((files.insertionSort (fun a b => strLe a.1 b.1 = true)).map
      (fun f => f.2.2)).sum)
    ((files.insertionSort (fun a b => strLe a.1 b.1 = true)).take
      (filesBudget cancelAt
        (files.insertionSort (fun a b => strLe a.1 b.1 = true)).length))
    ([], 0, 0, [0]) (List.chain'_singleton _) (by simp)
    (by intro w hw
        simp only [List.getLast?_singleton, Option.some.injEq] at hw
        subst hw
        exact Nat.zero_le _)
  simp only [mergerRun]
  split
  · constructor
    · split
      · exact List.chain'_singleton _
      · exact List.chain'_nil
    · intro v hv
      split at hv
      · rw [List.mem_singleton] at hv
        omega
      · exact absurd hv (List.not_mem_nil v)
  · split
    all_goals split
    · exact ⟨g1, g2⟩
    · exact chain_append_100 _ _ g1 g2
        (by split
            · exact Or.inr rfl
            · exact Or.inl rfl)
    · exact ⟨g1, g2⟩
    · exact chain_append_100 _ _ g1 g2
        (by split
            · exact Or.inr rfl
            · exact Or.inl rfl)

/-- C8: within a single merge or split operation, every emitted progress
value is an integer between 0 and 100 inclusive (values are naturals, so
the lower bound holds by type), and the sequence of emitted progress values
is monotonically non-decreasing from the first emission to the last, for
every input and every cancellation time. -/
theorem C8_progress_invariant :
    (∀ (F : MergeFormat) (files : List (Str × Str × Nat))
        (cancelAt : Option Nat),
      List.Chain' (· ≤ ·) (mergerRun F files cancelAt).progress ∧
      ∀ v ∈ (mergerRun F files cancelAt).progress, v ≤ 100) ∧
    (∀ (F : MergeFormat) (outDir : List Str) (artifact : Str)
        (cancelAt : Option Nat),
      List.Chain' (· ≤ ·) (splitRun F outDir artifact cancelAt).progress ∧
      ∀ v ∈ (splitRun F outDir artifact cancelAt).progress, v ≤ 100) :=
  ⟨mergerRun_progress, splitRun_progress⟩

/-- Witness for C8 at a concrete merge run: 100 is among the emitted values
and the theorem bounds it. -/
theorem C8_progress_invariant_witness :
    (100 : Nat) ∈ (mergerRun fmtDefault [("a.txt".data, "hi".data, 2)]
      none).progress ∧ (100 : Nat) ≤ 100 :=
  ⟨by decide, (C8_progress_invariant.1 fmtDefault
    [("a.txt".data, "hi".data, 2)] none).2 100 (by decide)⟩

theorem validPath_parts (p : Str) (h : validPath p = true) :
    ¬p.isEmpty ∧ (∀ c ∈ p, isNLChar c = false ∧ c ≠ '\\') ∧
    (∀ c, p.head? = some c → pySpace c = false ∧ isDotSlashSpace c = false) ∧
    (∀ c, p.getLast? = some c → pySpace c = false ∧ isDotSlashSpace c = false) ∧
    "..".data ∉ pathParts p ∧ "``".data.isPrefixOf p = false := by
  simp only [validPath, Bool.and_eq_true] at h
  obtain ⟨⟨⟨⟨⟨h1, h2⟩, h3⟩, h4⟩, h5⟩, h6⟩ := h
  refine ⟨by simpa using h1, ?_, ?_, ?_, ?_, by simpa using h6⟩
  · intro c hc
    have := (List.all_eq_true.mp h2) c hc
    simp only [Bool.and_eq_true, Bool.not_eq_true', beq_eq_false_iff_ne] at this
    exact ⟨this.1, this.2⟩
  · intro c hc
    rw [hc] at h3
    simp only [Option.all_some, Bool.and_eq_true, Bool.not_eq_true'] at h3
    exact h3
  · intro c hc
    rw [hc] at h4
    simp only [Option.all_some, Bool.and_eq_true, Bool.not_eq_true'] at h4
    exact h4
  · intro hmem
    have := (List.all_eq_true.mp h5) _ hmem
    simp at this

theorem validPath_ne_nil {p : Str} (h : validPath p = true) : p ≠ [] := by
  have := (validPath_parts p h).1
  simpa using this

theorem validPath_noNL {p : Str} (h : validPath p = true) :
    ∀ c ∈ p, isNLChar c = false :=
  fun c hc => ((validPath_parts p h).2.1 c hc).1

theorem validPath_strip {p : Str} (h : validPath p = true) : pyStrip p = p :=
  pyStrip_no_space_bounds p
    (fun c hc => ((validPath_parts p h).2.2.1 c hc).1)
    (fun c hc => ((validPath_parts p h).2.2.2.1 c hc).1)

theorem validPath_head_ne_slash {p : Str} (h : validPath p = true) :
    p.head? ≠ some '/' := by
  intro hc
  have := ((validPath_parts p h).2.2.1 '/' hc).2
  simp [isDotSlashSpace] at this

theorem validPath_clean {p : Str} (h : validPath p = true) : cleanPath p = p := by
  obtain ⟨-, h2, h3, h4, -, -⟩ := validPath_parts p h
  simp only [cleanPath]
  have hm : p.map (fun c => if c = '\\' then '/' else c) = p := by
    calc p.map (fun c => if c = '\\' then '/' else c)
        = p.map id := List.map_congr_left (fun c hc => if_neg ((h2 c hc).2))
      _ = p := List.map_id p
  rw [hm]
  have hd : p.dropWhile isDotSlashSpace = p := by
    cases p with
    | nil => rfl
    | cons c rest =>
      rw [List.dropWhile_cons, (h3 c (by simp)).2]
      simp
  rw [hd]
  have hd2 : p.reverse.dropWhile isDotSlashSpace = p.reverse := by
    cases hr : p.reverse with
    | nil => rfl
    | cons c rest =>
      have hlast : p.getLast? = some c := by
        rw [← List.head?_reverse, hr]; rfl
      rw [List.dropWhile_cons, (h4 c hlast).2]
      simp
  rw [hd2, List.reverse_reverse]

theorem validPath_no_dotdot {p : Str} (h : validPath p = true) :
    "..".data ∉ pathParts p :=
  (validPath_parts p h).2.2.2.2.1

theorem validPath_no_fence {p : Str} (h : validPath p = true) :
    "``".data.isPrefixOf p = false :=
  (validPath_parts p h).2.2.2.2.2

theorem takeLine_append (a : Str) (z : Str) (h : ∀ c ∈ a, c ≠ '\n') :
    takeLine (a ++ '\n' :: z) = a ++ ['\n'] := by
  induction a with
  | nil =>
    rw [List.nil_append, takeLine]
    simp
  | cons c rest ih =>
    rw [List.cons_append, takeLine, if_neg (h c (by simp)),
      ih (fun d hd => h d (by simp [hd])), List.cons_append]

theorem ensureNL_nil_or_last (c : Str) :
    ensureNL c = [] ∨ (ensureNL c).getLast? = some '\n' := by
  unfold ensureNL
  split
  case isTrue h => right; exact List.getLast?_concat c
  case isFalse h =>
    push_neg at h
    rcases Decidable.em (c = []) with hc | hc
    · left; exact hc
    · right; exact h hc

theorem pySplitlines_body (s : Str) (hs : s = [] ∨ s.getLast? = some '\n')
    (e : Str) (he : ∀ c ∈ e, isNLChar c = false) :
    pySplitlines (s ++ (e ++ ['\n'])) = pySplitlines s ++ [e ++ ['\n']] := by
  rcases hs with h | h
  · subst h
    rw [List.nil_append, pySplitlines_line e he]
    rfl
  · rw [pySplitlines_append s _ h, pySplitlines_line e he]

theorem processLines_cons (F : MergeFormat) (outDir : List Str)
    (st : SplitState) (l : Str) (ls : List Str) :
    processLines F outDir st (l :: ls) =
      processLines F outDir (stepLine F outDir st l) ls := rfl

theorem processLines_append_split (F : MergeFormat) (outDir : List Str)
    (st : SplitState) (l1 l2 : List Str) :
    processLines F outDir st (l1 ++ l2) =
      processLines F outDir (processLines F outDir st l1) l2 := by
  simp [processLines, List.foldl_append]

/-- A blank separator line between blocks leaves the outside-of-block state
unchanged. -/
theorem stepLine_sep (F : MergeFormat) (outDir : List Str) (st : SplitState)
    (hcap : F.startCapture [] = none) (h1 : st.in_file_block = false) :
    stepLine F outDir st ['\n'] = st := by
  apply stepLine_outside_none F outDir st ['\n'] h1
  have : pyStrip ['\n'] = [] := by decide
  rw [this, hcap]

/-- Inside a block, lines that do not strip to the end delimiter are
accumulated verbatim. -/
theorem processLines_acc (F : MergeFormat) (outDir : List Str) (p : Str)
    (ls : List Str) (hend : ∀ l ∈ ls, pyStrip l ≠ F.get_end_delimiter p) :
    ∀ st : SplitState, st.in_file_block = true →
      st.just_started_block = false →
      st.current_file_path_relative = p →
      processLines F outDir st ls =
        { st with current_file_content_lines :=
            st.current_file_content_lines ++ ls } := by
  induction ls with
  | nil =>
    intro st h1 h2 h3
    cases st
    simp [processLines]
  | cons l rest ih =>
    intro st h1 h2 h3
    rw [processLines_cons]
    rw [stepLine_acc F outDir st l h1 h2 (by rw [h3]; exact hend l (by simp))]
    rw [ih (fun l hl => hend l (by simp [hl]))
      { st with current_file_content_lines :=
          st.current_file_content_lines ++ [l] } h1 h2 h3]
    simp

/-- The lines of one emitted block: the start delimiter line, the skipped
prefix line when the format has one, the content lines, and the end
delimiter line. -/
theorem pySplitlines_mergeBlock (F : MergeFormat) (hG : GoodFormat F)
    (p c : Str) (hp : validPath p = true) :
    pySplitlines (mergeBlock F p c) =
      (F.start p ++ ['\n']) ::
        ((if F.skip_line_after_start then [F.content_prefix] else []) ++
          (pySplitlines (ensureNL c) ++
            [F.get_end_delimiter p ++ ['\n']])) := by
  have hre : mergeBlock F p c =
      (F.start p ++ ['\n']) ++
        (F.content_prefix ++
          (ensureNL c ++ (F.get_end_delimiter p ++ ['\n']))) := by
    unfold mergeBlock
    rw [hG.suffix_nil, hG.endOf_eq]
    simp [List.append_assoc]
  rw [hre]
  rw [pySplitlines_append _ _ (List.getLast?_concat _)]
  rw [pySplitlines_line _ (hG.start_noNL p hp)]
  have hbody : pySplitlines (ensureNL c ++ (F.get_end_delimiter p ++ ['\n'])) =
      pySplitlines (ensureNL c) ++ [F.get_end_delimiter p ++ ['\n']] :=
    pySplitlines_body _ (ensureNL_nil_or_last c) _ (hG.end_noNL p hp)
  rcases hG.prefix_cases with ⟨hskip, hpl, hplast⟩ | ⟨hskip, hpnil⟩
  · rw [pySplitlines_append _ _ hplast, hpl, hbody, hskip]
    simp
  · rw [hpnil, List.nil_append, hbody, hskip]
    simp

/-- Parsing the lines of one emitted block from the between-blocks state
writes exactly that file (at the output directory extended by the path's
segments, with the conditional trailing newline) and returns to the
between-blocks state. -/
theorem processLines_block (F : MergeFormat) (outDir : List Str)
    (hG : GoodFormat F) (p c : Str) (hp : validPath p = true)
    (hc : ∀ l ∈ pySplitlines (ensureNL c), pyStrip l ≠ F.get_end_delimiter p)
    (n : Nat) (w : List (List Str × Str)) (cf : List Str) :
    processLines F outDir (betweenState n w cf)
        (pySplitlines (mergeBlock F p c)) =
      betweenState (n + 1) (w ++ [(outDir ++ pathParts p, ensureNL c)])
        (cf ++ [p]) := by
  obtain ⟨cap, hcap, hcapstrip⟩ := hG.capture_start p hp
  have hstrip_line : pyStrip (F.start p ++ ['\n']) = F.start p := by
    rw [pyStrip_append_space _ _ (by intro d hd; rw [List.mem_singleton] at hd; subst hd; decide),
      hG.start_strip p hp]
  have hstep1 : stepLine F outDir (betweenState n w cf) (F.start p ++ ['\n']) =
      { current_file_path_relative := p
        current_file_content_lines := []
        in_file_block := true
        just_started_block := F.skip_line_after_start
        file_count := n
        written := w
        created_file_paths := cf } := by
    rw [stepLine_outside_enter F outDir (betweenState n w cf)
      (F.start p ++ ['\n']) cap rfl (by rw [hstrip_line]; exact hcap)
      (by rw [hcapstrip]; exact validPath_ne_nil hp)
      (by rw [hcapstrip]; exact validPath_head_ne_slash hp)]
    rw [hcapstrip]
    rfl
  have hstrip_end : pyStrip (F.get_end_delimiter p ++ ['\n']) =
      F.get_end_delimiter p := by
    rw [pyStrip_append_space _ _ (by intro d hd; rw [List.mem_singleton] at hd; subst hd; decide),
      hG.end_strip p hp]
  have hwf : write_file outDir p (pySplitlines (ensureNL c)).flatten =
      some (outDir ++ pathParts p, ensureNL c) := by
    rw [pySplitlines_flatten (ensureNL c)]
    have := write_file_clean outDir p (ensureNL c) (validPath_ne_nil hp)
      (by rw [validPath_clean hp]; exact validPath_ne_nil hp)
      (by rw [validPath_clean hp]; exact validPath_no_dotdot hp)
    rw [validPath_clean hp] at this
    exact this
  have hmid : ∀ st : SplitState, st.in_file_block = true →
      st.just_started_block = false → st.current_file_path_relative = p →
      st.current_file_content_lines = [] →
      processLines F outDir st
        (pySplitlines (ensureNL c) ++ [F.get_end_delimiter p ++ ['\n']]) =
        { current_file_path_relative := []
          current_file_content_lines := []
          in_file_block := false
          just_started_block := false
          file_count := st.file_count + 1
          written := st.written ++ [(outDir ++ pathParts p, ensureNL c)]
          created_file_paths := st.created_file_paths ++ [p] } := by
    intro st h1 h2 h3 h4
    rw [processLines_append_split]
    rw [processLines_acc F outDir p _ hc st h1 h2 h3]
    rw [processLines_cons]
    have hend := stepLine_end F outDir
      { st with current_file_content_lines :=
          st.current_file_content_lines ++ pySplitlines (ensureNL c) }
      (F.get_end_delimiter p ++ ['\n'])
      (outDir ++ pathParts p, ensureNL c) h1 h2
      (by rw [hstrip_end]; dsimp only; rw [h3])
      (by dsimp only; rw [h3, h4, List.nil_append]; exact hwf)
    rw [hend]
    rw [processLines]
    dsimp only
    rw [h3]
    rfl
  rw [pySplitlines_mergeBlock F hG p c hp]
  rw [processLines_cons, hstep1]
  rcases hG.prefix_cases with ⟨hskip, -, -⟩ | ⟨hskip, -⟩
  · rw [hskip]
    simp only [if_true, List.singleton_append]
    rw [processLines_cons]
    rw [stepLine_skip F outDir _ F.content_prefix rfl rfl]
    rw [hmid _ rfl rfl rfl rfl]
    rfl
  · rw [hskip]
    rw [if_neg (by simp), List.nil_append]
    rw [hmid _ rfl rfl rfl rfl]
    rfl

/-- Parsing the whole artifact of a valid file list extends the write log by
one entry per file, in order. -/
theorem processLines_artifact (F : MergeFormat) (outDir : List Str)
    (hG : GoodFormat F) :
    ∀ fs : List (Str × Str),
      (∀ pc ∈ fs, validPath pc.1 = true) →
      (∀ pc ∈ fs, ∀ l ∈ pySplitlines (ensureNL pc.2),
        pyStrip l ≠ F.get_end_delimiter pc.1) →
      ∀ (n : Nat) (w : List (List Str × Str)) (cf : List Str),
      processLines F outDir (betweenState n w cf)
          (pySplitlines (mergeArtifact F fs)) =
        betweenState (n + fs.length)
          (w ++ fs.map (fun pc => (outDir ++ pathParts pc.1, ensureNL pc.2)))
          (cf ++ fs.map Prod.fst) := by
  intro fs
  induction fs with
  | nil =>
    intro _ _ n w cf
    simp [mergeArtifact, processLines, pySplitlines]
  | cons f rest ih =>
    rcases rest with _ | ⟨g, rest2⟩
    · intro hv hc n w cf
      obtain ⟨p, c⟩ := f
      rw [show mergeArtifact F [(p, c)] = mergeBlock F p c from rfl]
      rw [processLines_block F outDir hG p c (hv (p, c) (by simp))
        (hc (p, c) (by simp)) n w cf]
      simp
    · intro hv hc n w cf
      obtain ⟨p, c⟩ := f
      rw [show mergeArtifact F ((p, c) :: g :: rest2) =
        mergeBlock F p c ++ (F.file_separator ++ mergeArtifact F (g :: rest2))
        from by rw [← List.append_assoc]; rfl]
      have hbl : (mergeBlock F p c).getLast? = some '\n' := by
        unfold mergeBlock
        exact List.getLast?_concat _
      rw [pySplitlines_append _ _ hbl]
      rw [pySplitlines_append _ _ (by rw [hG.sep_eq]; rfl)]
      rw [hG.sep_eq]
      rw [show pySplitlines ['\n', '\n'] = [['\n'], ['\n']] from rfl]
      rw [processLines_append_split]
      rw [processLines_block F outDir hG p c (hv (p, c) (by simp))
        (hc (p, c) (by simp)) n w cf]
      rw [processLines_append_split]
      rw [show processLines F outDir
        (betweenState (n + 1) (w ++ [(outDir ++ pathParts p, ensureNL c)])
          (cf ++ [p])) [['\n'], ['\n']] =
        betweenState (n + 1) (w ++ [(outDir ++ pathParts p, ensureNL c)])
          (cf ++ [p]) from by
          rw [processLines_cons,
            stepLine_sep F outDir _ hG.capture_empty rfl,
            processLines_cons,
            stepLine_sep F outDir _ hG.capture_empty rfl]
          rfl]
      rw [ih (fun pc hpc => hv pc (by simp [hpc]))
        (fun pc hpc => hc pc (by simp [hpc])) (n + 1)
        (w ++ [(outDir ++ pathParts p, ensureNL c)]) (cf ++ [p])]
      simp only [betweenState, List.map_cons, List.append_assoc,
        List.singleton_append, List.length_cons]
      have harith : n + 1 + (rest2.length + 1) = n + (rest2.length + 1 + 1) := by
        omega
      rw [harith]

theorem head?_append_append (a b d : Str) (ha : a ≠ []) :
    ((a ++ b) ++ d).head? = a.head? := by
  cases a with
  | nil => exact absurd rfl ha
  | cons x xs => rfl

theorem fmtDefault_capture (p : Str) :
    fmtDefault.startCapture ("--- START FILE: ".data ++ (p ++ " ---".data)) =
      some p := by
  simp only [fmtDefault]
  have hd : ("--- START FILE: ".data ++ (p ++ " ---".data)).drop 16 =
      p ++ " ---".data := by
    have := List.drop_left "--- START FILE: ".data (p ++ " ---".data)
    simpa using this
  rw [hd]
  rw [if_pos ((Bool.and_eq_true _ _).mpr
    ⟨List.isPrefixOf_iff_prefix.mpr (List.prefix_append _ _),
     List.isSuffixOf_iff_suffix.mpr (List.suffix_append _ _)⟩)]
  rw [show (p ++ " ---".data).length - 4 = p.length from by simp,
    List.take_left]

/-- The `Default` format satisfies every round-trip fact. -/
theorem goodDefault : GoodFormat fmtDefault := by
  have hlitS : ∀ d ∈ "--- START FILE: ".data, isNLChar d = false := by decide
  have hlitS2 : ∀ d ∈ " ---".data, isNLChar d = false := by decide
  have hlitE : ∀ d ∈ "--- END FILE: ".data, isNLChar d = false := by decide
  refine ⟨rfl, rfl, fun p => rfl, ?_, ?_, ?_, by decide, ?_, ?_,
    Or.inr ⟨rfl, rfl⟩, ?_⟩
  · intro p hp c hc
    rcases List.mem_append.mp hc with h | h
    · rcases List.mem_append.mp h with h2 | h2
      · exact hlitS c h2
      · exact validPath_noNL hp c h2
    · exact hlitS2 c h
  · intro p hp
    apply pyStrip_no_space_bounds
    · intro c hc
      rw [show fmtDefault.start p =
        ("--- START FILE: ".data ++ p) ++ " ---".data from rfl,
        head?_append_append _ _ _ (by decide)] at hc
      rw [show ("--- START FILE: ".data).head? = some '-' from rfl] at hc
      rw [← Option.some.inj hc]
      decide
    · intro c hc
      rw [show fmtDefault.start p =
        ("--- START FILE: ".data ++ p) ++ " ---".data from rfl,
        List.getLast?_append_of_ne_nil _ (by decide)] at hc
      rw [show (" ---".data).getLast? = some '-' from rfl] at hc
      rw [← Option.some.inj hc]
      decide
  · intro p hp
    refine ⟨p, ?_, validPath_strip hp⟩
    rw [show fmtDefault.start p =
      "--- START FILE: ".data ++ (p ++ " ---".data) from by
        show ("--- START FILE: ".data ++ p) ++ " ---".data = _
        rw [List.append_assoc]]
    exact fmtDefault_capture p
  · intro p hp c hc
    rcases List.mem_append.mp hc with h | h
    · rcases List.mem_append.mp h with h2 | h2
      · exact hlitE c h2
      · exact validPath_noNL hp c h2
    · exact hlitS2 c h
  · intro p hp
    apply pyStrip_no_space_bounds
    · intro c hc
      rw [show fmtDefault.get_end_delimiter p =
        ("--- END FILE: ".data ++ p) ++ " ---".data from rfl,
        head?_append_append _ _ _ (by decide)] at hc
      rw [show ("--- END FILE: ".data).head? = some '-' from rfl] at hc
      rw [← Option.some.inj hc]
      decide
    · intro c hc
      rw [show fmtDefault.get_end_delimiter p =
        ("--- END FILE: ".data ++ p) ++ " ---".data from rfl,
        List.getLast?_append_of_ne_nil _ (by decide)] at hc
      rw [show (" ---".data).getLast? = some '-' from rfl] at hc
      rw [← Option.some.inj hc]
      decide
  · intro p hp h
    have h16 := congrArg (List.take 16) h
    rw [show fmtDefault.start p =
      ("--- START FILE: ".data ++ p) ++ " ---".data from rfl] at h16
    rw [List.take_append_of_le_length (by simp),
      List.take_left' (by rfl)] at h16
    exact absurd h16 (by decide)

theorem fmtMarkdown_capture (p : Str) :
    fmtMarkdown.startCapture ("File: `".data ++ (p ++ "`".data)) = some p := by
  simp only [fmtMarkdown]
  have hd : ("File: `".data ++ (p ++ "`".data)).drop 7 = p ++ "`".data := by
    have := List.drop_left "File: `".data (p ++ "`".data)
    simpa using this
  rw [hd]
  rw [if_pos ((Bool.and_eq_true _ _).mpr
    ⟨List.isPrefixOf_iff_prefix.mpr (List.prefix_append _ _),
     List.isSuffixOf_iff_suffix.mpr (List.suffix_append _ _)⟩)]
  rw [show (p ++ "`".data).length - 1 = p.length from by simp,
    List.take_left]

/-- The `Markdown` format satisfies every round-trip fact. -/
theorem goodMarkdown : GoodFormat fmtMarkdown := by
  have hlitS : ∀ d ∈ "File: `".data, isNLChar d = false := by decide
  have hlitS2 : ∀ d ∈ "`".data, isNLChar d = false := by decide
  have hlitE : ∀ d ∈ "```".data, isNLChar d = false := by decide
  have hstripE : pyStrip "```".data = "```".data := by decide
  refine ⟨rfl, rfl, fun p => rfl, ?_, ?_, ?_, by decide,
    fun p hp c hc => hlitE c hc, fun p hp => hstripE,
    Or.inl ⟨rfl, by decide, rfl⟩, ?_⟩
  · intro p hp c hc
    rcases List.mem_append.mp hc with h | h
    · rcases List.mem_append.mp h with h2 | h2
      · exact hlitS c h2
      · exact validPath_noNL hp c h2
    · exact hlitS2 c h
  · intro p hp
    apply pyStrip_no_space_bounds
    · intro c hc
      rw [show fmtMarkdown.start p =
        ("File: `".data ++ p) ++ "`".data from rfl,
        head?_append_append _ _ _ (by decide)] at hc
      rw [show ("File: `".data).head? = some 'F' from rfl] at hc
      rw [← Option.some.inj hc]
      decide
    · intro c hc
      rw [show fmtMarkdown.start p =
        ("File: `".data ++ p) ++ "`".data from rfl,
        List.getLast?_append_of_ne_nil _ (by decide)] at hc
      rw [show ("`".data).getLast? = some '`' from rfl] at hc
      rw [← Option.some.inj hc]
      decide
  · intro p hp
    refine ⟨p, ?_, validPath_strip hp⟩
    rw [show fmtMarkdown.start p =
      "File: `".data ++ (p ++ "`".data) from by
        show ("File: `".data ++ p) ++ "`".data = _
        rw [List.append_assoc]]
    exact fmtMarkdown_capture p
  · intro p hp h
    have hh := congrArg List.head? h
    rw [show fmtMarkdown.start p =
      ("File: `".data ++ p) ++ "`".data from rfl,
      head?_append_append _ _ _ (by decide)] at hh
    exact absurd hh (by decide)

theorem fmtFenced_capture (p : Str) (hp : "``".data.isPrefixOf p = false) :
    fmtFenced.startCapture ("```".data ++ p) = some p := by
  simp only [fmtFenced]
  have hd : ("```".data ++ p).drop 3 = p := by
    have := List.drop_left "```".data p
    simpa using this
  rw [hd]
  rw [if_pos ((Bool.and_eq_true _ _).mpr
    ⟨List.isPrefixOf_iff_prefix.mpr (List.prefix_append _ _),
     by rw [hp]; rfl⟩)]

/-- The `Markdown (Fenced)` format satisfies every round-trip fact. -/
theorem goodFenced : GoodFormat fmtFenced := by
  have hlitS : ∀ d ∈ "```".data, isNLChar d = false := by decide
  have hlitE : ∀ d ∈ "```".data, isNLChar d = false := by decide
  have hstripE : pyStrip "```".data = "```".data := by decide
  refine ⟨rfl, rfl, fun p => rfl, ?_, ?_, ?_, by decide,
    fun p hp c hc => hlitE c hc, fun p hp => hstripE,
    Or.inr ⟨rfl, rfl⟩, ?_⟩
  · intro p hp c hc
    rcases List.mem_append.mp hc with h | h
    · exact hlitS c h
    · exact validPath_noNL hp c h
  · intro p hp
    apply pyStrip_no_space_bounds
    · intro c hc
      rw [show fmtFenced.start p = "```".data ++ p from rfl,
        head?_append_left _ _ (by decide)] at hc
      rw [show ("```".data).head? = some '`' from rfl] at hc
      rw [← Option.some.inj hc]
      decide
    · intro c hc
      rw [show fmtFenced.start p = "```".data ++ p from rfl,
        List.getLast?_append_of_ne_nil _ (validPath_ne_nil hp)] at hc
      exact ((validPath_parts p hp).2.2.2.1 c hc).1
  · intro p hp
    exact ⟨p, fmtFenced_capture p (validPath_no_fence hp), validPath_strip hp⟩
  · intro p hp h
    have hh := congrArg List.head? h
    rw [show fmtFenced.start p = "```".data ++ p from rfl,
      head?_append_left _ _ (by decide)] at hh
    exact absurd hh (by decide)

theorem finishSplit_between (F : MergeFormat) (outDir : List Str) (n : Nat)
    (w : List (List Str × Str)) (cf : List Str) :
    finishSplit F outDir (betweenState n w cf) = (w, n) := rfl

/-- Splitting the merge of a valid file list (no cancellation, well-behaved
format) writes exactly the sorted files, each at the output directory
extended by its path segments, with the conditional trailing newline. -/
theorem splitRun_mergeRun (F : MergeFormat) (outDir : List Str)
    (hG : GoodFormat F) (files : List (Str × Str))
    (hv : ∀ pc ∈ files, validPath pc.1 = true)
    (hc : ∀ pc ∈ files, ∀ l ∈ pySplitlines (ensureNL pc.2),
      pyStrip l ≠ F.get_end_delimiter pc.1) :
    (splitRun F outDir (mergeRun F files) none).written =
      (sortFiles files).map
        (fun pc => (outDir ++ pathParts pc.1, ensureNL pc.2)) ∧
    (splitRun F outDir (mergeRun F files) none).file_count = files.length := by
  have hperm : List.Perm (sortFiles files) files :=
    List.perm_insertionSort _ files
  have hv' : ∀ pc ∈ sortFiles files, validPath pc.1 = true :=
    fun pc hpc => hv pc (hperm.mem_iff.mp hpc)
  have hc' : ∀ pc ∈ sortFiles files, ∀ l ∈ pySplitlines (ensureNL pc.2),
      pyStrip l ≠ F.get_end_delimiter pc.1 :=
    fun pc hpc => hc pc (hperm.mem_iff.mp hpc)
  have hns : pyStrip (takeLine (mergeRun F files)) ≠ TREE_START_DELIMITER := by
    cases hsf : sortFiles files with
    | nil =>
      rw [mergeRun, hsf]
      rw [show mergeArtifact F [] = [] from rfl]
      decide
    | cons f rest =>
      obtain ⟨p, c⟩ := f
      have hpv : validPath p = true := hv' (p, c) (by rw [hsf]; simp)
      obtain ⟨tail, htail⟩ : ∃ t, mergeArtifact F ((p, c) :: rest) =
          mergeBlock F p c ++ t := by
        cases rest with
        | nil => exact ⟨[], by simp [mergeArtifact]⟩
        | cons g rest2 =>
          exact ⟨F.file_separator ++ mergeArtifact F (g :: rest2), by
            rw [← List.append_assoc]; rfl⟩
      have hform : mergeRun F files =
          F.start p ++ ('\n' :: (F.content_prefix ++ (ensureNL c ++
            (F.content_suffix ++ (F.endOf p ++ ('\n' :: tail)))))) := by
        rw [mergeRun, hsf, htail]
        simp [mergeBlock, List.append_assoc]
      rw [hform]
      rw [takeLine_append _ _ (by
        intro d hd hdn
        have := hG.start_noNL p hpv d hd
        rw [hdn] at this
        exact absurd this (by decide))]
      rw [pyStrip_append_space _ _ (by
        intro d hd
        rw [List.mem_singleton] at hd
        subst hd
        decide)]
      rw [hG.start_strip p hpv]
      exact hG.start_ne_tree p hpv
  obtain ⟨hwr, hfc, -, -, -⟩ := splitRun_none_eval F outDir (mergeRun F files) hns
  have hart : processLines F outDir initSplitState
      (pySplitlines (mergeRun F files)) =
      betweenState (0 + (sortFiles files).length)
        ([] ++ (sortFiles files).map
          (fun pc => (outDir ++ pathParts pc.1, ensureNL pc.2)))
        ([] ++ (sortFiles files).map Prod.fst) := by
    rw [show initSplitState = betweenState 0 [] [] from rfl]
    rw [mergeRun]
    exact processLines_artifact F outDir hG (sortFiles files) hv' hc' 0 [] []
  rw [hart, finishSplit_between] at hwr hfc
  constructor
  · rw [hwr]
    simp
  · rw [hfc]
    simpa using hperm.length_eq

/-- C1: for every finite file list with valid, pairwise-distinct relative
paths (`validPath`: non-absolute, non-traversing, unchanged by the parser's
and writer's stripping) whose contents have no line stripping to the
format's end delimiter for that file, and every built-in format, splitting
the merged artifact into an empty output directory recreates every file at
its original relative path (the write log is exactly one entry per file, at
the output directory extended by the path's segments, with pairwise
distinct targets) with byte-identical content except that a non-empty
content without a trailing newline gains exactly one (`ensureNL`). -/
theorem C1_round_trip (F : MergeFormat) (outDir : List Str)
    (files : List (Str × Str)) (hF : F ∈ builtinFormats)
    (hnd : (files.map (fun pc => pathParts pc.1)).Nodup)
    (hv : ∀ pc ∈ files, validPath pc.1 = true)
    (hc : ∀ pc ∈ files, ∀ l ∈ pySplitlines (ensureNL pc.2),
      pyStrip l ≠ F.get_end_delimiter pc.1) :
    (splitRun F outDir (mergeRun F files) none).written =
      (sortFiles files).map
        (fun pc => (outDir ++ pathParts pc.1, ensureNL pc.2)) ∧
    (splitRun F outDir (mergeRun F files) none).file_count = files.length ∧
    ((splitRun F outDir (mergeRun F files) none).written.map Prod.fst).Nodup ∧
    ∀ pc ∈ files, (outDir ++ pathParts pc.1, ensureNL pc.2) ∈
      (splitRun F outDir (mergeRun F files) none).written := by
  have hG : GoodFormat F := by
    simp only [builtinFormats, List.mem_cons, List.not_mem_nil, or_false] at hF
    rcases hF with h | h | h <;> subst h
    exacts [goodDefault, goodMarkdown, goodFenced]
  obtain ⟨hwr, hfc⟩ := splitRun_mergeRun F outDir hG files hv hc
  have hperm : List.Perm (sortFiles files) files :=
    List.perm_insertionSort _ files
  refine ⟨hwr, hfc, ?_, ?_⟩
  · rw [hwr, List.map_map]
    have heq : (sortFiles files).map
        (Prod.fst ∘ fun pc => (outDir ++ pathParts pc.1, ensureNL pc.2)) =
        ((sortFiles files).map (fun pc => pathParts pc.1)).map
          (fun x => outDir ++ x) := by
      rw [List.map_map]
      rfl
    rw [heq]
    have hnd' : ((sortFiles files).map (fun pc => pathParts pc.1)).Nodup :=
      (List.Perm.nodup_iff (hperm.map _)).mpr hnd
    exact hnd'.map (fun a b hab => List.append_cancel_left hab)
  · intro pc hpc
    rw [hwr]
    exact List.mem_map_of_mem _ (hperm.mem_iff.mpr hpc)

/-- Witness for C1: the spec's two-file scenario with the Default format,
all hypotheses discharged; the split of the merge writes both files (with
`hello` gaining a newline) and counts 2. -/
theorem C1_round_trip_witness :
    fmtDefault ∈ builtinFormats ∧
    (splitRun fmtDefault ["out".data] (mergeRun fmtDefault c1Files)
      none).written =
      [(["out".data, "a.txt".data], "hello\n".data),
       (["out".data, "sub".data, "b.txt".data], "world\n".data)] ∧
    (splitRun fmtDefault ["out".data] (mergeRun fmtDefault c1Files)
      none).file_count = 2 := by
  have hF : fmtDefault ∈ builtinFormats := by
    rw [builtinFormats]
    exact List.mem_cons_self _ _
  have h := C1_round_trip fmtDefault ["out".data] c1Files hF
    (by decide) (by decide) (by decide)
  refine ⟨hF, ?_, ?_⟩
  · rw [h.1]
    decide
  · rw [h.2.1]
    rfl
